import Mathlib

/-!
# Token cursor and diagnostics sink of the Teal parser

A shallow embedding of `teal::Parser` (`src/teal/parser/Parser.hpp`): the token
cursor (`peekToken`, `isAtEnd`, `check`, `match`, `matchAny`, `consume`,
`skipToNextStatement`), the diagnostics sink (`pushError`) and the top-level
entry point `parse`.

The mutable object is an explicit state `Parser`; a member function becomes a
function from the state to an `Outcome`, which is a normal return with the new
state, a propagating `StopParsingException` with the state at the throw, or
undefined behaviour (a read outside `_tokens`).
-/

namespace teal

/-- Modelled from the spec: the token type tags, declared in `AST.hpp`, which is
not part of the sources at hand. The constructors are the tags that
`Parser.hpp` names; every other tag of the enumeration is `other n`. -/
inductive TokenType where
  | Name
  | EndOfFile
  | Op_Semicolon
  | K_return
  | K_break
  | K_global
  | K_local
  | K_if
  | K_while
  | K_for
  | K_function
  | K_repeat
  | K_end
  | K_until
  | K_else
  | K_elseif
  | other (tag : Nat)
  deriving DecidableEq, Repr

/-- Modelled from the spec: the token record, declared in `AST.hpp`:
`{ type: tag, line: int, col: int, lexeme: text }`. -/
structure Token where
  type : TokenType
  line : Int
  col : Int
  lexeme : String
  deriving DecidableEq, Repr

/-- The diagnostic record `Parser::Error`. -/
structure Error where
  message : String
  line : Int
  col : Int
  deriving DecidableEq, Repr

/-- The data members of `Parser`: `maxErrors`, `_tokens`, `_pos`, `_errors`. -/
structure Parser where
  maxErrors : Nat
  tokens : List Token
  pos : Nat
  errors : List Error
  deriving DecidableEq, Repr

/-- The constructor `Parser(std::vector<Token> toks)`. -/
def Parser.new (toks : List Token) : Parser :=
  { maxErrors := 10, tokens := toks, pos := 0, errors := [] }

/-- How a member function ends: `ret a s` is a normal return of `a` in state `s`,
`stop s` is a `StopParsingException` leaving the function in state `s`, and
`undefined` is a read outside `_tokens`. -/
inductive Outcome (α : Type) where
  | ret (a : α) (s : Parser)
  | stop (s : Parser)
  | undefined

/-- The state an outcome leaves behind, if it has one. -/
def Outcome.state {α : Type} : Outcome α → Option Parser
  | .ret _ s => some s
  | .stop s => some s
  | .undefined => none

/-- Sequencing of member function calls: an exception or undefined behaviour
in the first call skips the rest. -/
def Outcome.bind {α β : Type} (o : Outcome α) (k : α → Parser → Outcome β) : Outcome β :=
  match o with
  | .ret a s => k a s
  | .stop s => .stop s
  | .undefined => .undefined

/-- The function `peekToken(forward)`: `_tokens[_pos+forward]`; a call `peekToken()` is
`peekToken s 0`. An index outside the vector
(also a negative one, which wraps around in `size_t`) has no token. -/
def peekToken (s : Parser) (forward : Int) : Option Token :=
  if 0 ≤ (s.pos : Int) + forward then s.tokens[((s.pos : Int) + forward).toNat]? else none

/-- The function `isAtEnd()`. -/
def isAtEnd (s : Parser) : Option Bool :=
  (peekToken s 0).map fun tok => tok.type == TokenType.EndOfFile

/-- The function `check(t)`. `Token::typeIsTealKeyword` is declared in `AST.hpp`, which is not
part of the sources at hand: the soft-keyword test is the parameter
`typeIsTealKeyword` here and in every function that calls `check`. -/
def check (typeIsTealKeyword : TokenType → Bool) (s : Parser) (t : TokenType) : Option Bool :=
  (peekToken s 0).map fun tok =>
    (t == TokenType.Name && typeIsTealKeyword tok.type) || tok.type == t

/-- The function `match(t)`. -/
def match_ (typeIsTealKeyword : TokenType → Bool) (s : Parser) (t : TokenType) : Outcome Bool :=
  match check typeIsTealKeyword s t with
  | none => .undefined
  | some true => .ret true { s with pos := s.pos + 1 }
  | some false => .ret false s

/-- The `for` loop of `matchAny`. -/
def matchAnyLoop (typeIsTealKeyword : TokenType → Bool) (s : Parser) : List TokenType → Outcome Bool
  | [] => .ret false s
  | t :: ts =>
    match check typeIsTealKeyword s t with
    | none => .undefined
    | some true => .ret true { s with pos := s.pos + 1 }
    | some false => matchAnyLoop typeIsTealKeyword s ts

/-- The function `matchAny(types)`. -/
def matchAny (typeIsTealKeyword : TokenType → Bool) (s : Parser) (types : List TokenType) : Outcome Bool :=
  match check typeIsTealKeyword s TokenType.EndOfFile with
  | none => .undefined
  | some true => .ret false s
  | some false => matchAnyLoop typeIsTealKeyword s types

/-- The function `pushError(msg, nothrow)`; a call `pushError(msg)` is `pushError s msg false`. -/
def pushError (s : Parser) (msg : String) (nothrow : Bool) : Outcome Unit :=
  match peekToken s 0 with
  | none => .undefined
  | some tok =>
    let s1 : Parser := { s with errors := s.errors ++ [{ message := msg, line := tok.line, col := tok.col }] }
    if s1.errors.length ≥ s1.maxErrors && !nothrow then .stop s1 else .ret () s1

/-- The function `consume(t, errMsg)`. -/
def consume (typeIsTealKeyword : TokenType → Bool) (s : Parser) (t : TokenType)
    (errMsg : String) : Outcome (Option Token) :=
  match check typeIsTealKeyword s t with
  | none => .undefined
  | some true =>
    match peekToken s 0 with
    | none => .undefined
    | some tok => .ret (some tok) { s with pos := s.pos + 1 }
  | some false => (pushError s errMsg false).bind fun _ s1 => .ret none s1

/-- The condition under which `skipToNextStatement` returns: "a likely statement
boundary or block terminator". -/
def isStatementBoundary (t : TokenType) : Bool :=
  t == TokenType.Op_Semicolon || t == TokenType.K_return || t == TokenType.K_break ||
  t == TokenType.K_global || t == TokenType.K_local || t == TokenType.K_if ||
  t == TokenType.K_while || t == TokenType.K_for || t == TokenType.K_function ||
  t == TokenType.K_repeat || t == TokenType.K_end || t == TokenType.K_until ||
  t == TokenType.K_else || t == TokenType.K_elseif

/-- The `while` loop of `skipToNextStatement`, for at most `fuel` iterations. -/
def skipLoop : Nat → Parser → Outcome Unit
  | 0, _ => .undefined
  | fuel + 1, s =>
    match isAtEnd s with
    | none => .undefined
    | some true => .ret () s
    | some false =>
      match peekToken s 0 with
      | none => .undefined
      | some tok =>
        if isStatementBoundary tok.type then .ret () s
        else skipLoop fuel { s with pos := s.pos + 1 }

/-- The function `skipToNextStatement()`. Every iteration that does not return reads one of
the `_tokens.size() - _pos` tokens from the cursor on and steps over it, so the
loop has run out of tokens, and reads outside the vector, when this fuel is
spent. -/
def skipToNextStatement (s : Parser) : Outcome Unit :=
  skipLoop (s.tokens.length - s.pos) s

/-- The grammar code (`parseChunk` and the functions it calls), which
`Parser.hpp` declares and does not define. It is a tree of calls of the cursor
and diagnostics helpers: each node is one call, and the continuation is the
code that runs after it on the value the call returned. It reads the parser
through `inspect`, `peekToken`, `isAtEnd` and `check`, and changes `_pos` and
`_errors` only through `match`, `matchAny`, `consume`, `pushError(msg)` and
`skipToNextStatement`. -/
inductive Grammar (α : Type) where
  | done (a : α)
  | inspect (k : Parser → Grammar α)
  | peekToken (forward : Int) (k : Token → Grammar α)
  | isAtEnd (k : Bool → Grammar α)
  | check (t : TokenType) (k : Bool → Grammar α)
  | match_ (t : TokenType) (k : Bool → Grammar α)
  | matchAny (types : List TokenType) (k : Bool → Grammar α)
  | consume (t : TokenType) (errMsg : String) (k : Option Token → Grammar α)
  | pushError (msg : String) (k : Grammar α)
  | skipToNextStatement (k : Grammar α)

/-- Running grammar code from a parser state. -/
def Grammar.run {α : Type} (typeIsTealKeyword : TokenType → Bool) :
    Grammar α → Parser → Outcome α
  | .done a, s => .ret a s
  | .inspect k, s => (k s).run typeIsTealKeyword s
  | .peekToken forward k, s =>
    match teal.peekToken s forward with
    | none => .undefined
    | some tok => (k tok).run typeIsTealKeyword s
  | .isAtEnd k, s =>
    match teal.isAtEnd s with
    | none => .undefined
    | some b => (k b).run typeIsTealKeyword s
  | .check t k, s =>
    match teal.check typeIsTealKeyword s t with
    | none => .undefined
    | some b => (k b).run typeIsTealKeyword s
  | .match_ t k, s =>
    (teal.match_ typeIsTealKeyword s t).bind fun b s1 => (k b).run typeIsTealKeyword s1
  | .matchAny types k, s =>
    (teal.matchAny typeIsTealKeyword s types).bind fun b s1 => (k b).run typeIsTealKeyword s1
  | .consume t errMsg k, s =>
    (teal.consume typeIsTealKeyword s t errMsg).bind fun r s1 => (k r).run typeIsTealKeyword s1
  | .pushError msg k, s =>
    (teal.pushError s msg false).bind fun _ s1 => k.run typeIsTealKeyword s1
  | .skipToNextStatement k, s =>
    (teal.skipToNextStatement s).bind fun _ s1 => k.run typeIsTealKeyword s1

/-- The text that `std::format` makes of the pattern `Too many parsing errors (N)`,
with the decimal digits of `n` for `N`. -/
def tooManyErrors (n : Nat) : String :=
  "Too many parsing errors (" ++ toString n ++ ")"

/-- The function `parse()`, over the outcome of `parseChunk()`. A `std::unique_ptr<Block>` is
an `Option Block`, `nullptr` being `none`. -/
def parseWith {Block : Type} (parseChunk : Parser → Outcome (Option Block)) (s : Parser) :
    Outcome (Option Block) :=
  match parseChunk s with
  | .ret b s1 => .ret b s1
  | .stop s1 =>
    (pushError s1 (tooManyErrors s1.errors.length) true).bind fun _ s2 => .ret none s2
  | .undefined => .undefined

/-- The function `parse()` with the grammar code `g` as the body of `parseChunk()`. -/
def parse {Block : Type} (typeIsTealKeyword : TokenType → Bool) (g : Grammar (Option Block))
    (s : Parser) : Outcome (Option Block) :=
  parseWith (g.run typeIsTealKeyword) s

/-- The list `errors()` once a call has ended. -/
def Outcome.errors {α : Type} (o : Outcome α) : Option (List Error) :=
  o.state.map fun s => s.errors

/-! ## Vocabulary of the statements -/

/-- The diagnostic that `pushError(msg)` records when `tok` is under the cursor. -/
def diagnosticAt (msg : String) (tok : Token) : Error :=
  { message := msg, line := tok.line, col := tok.col }

/-- The state after one more diagnostic has been appended. -/
def Parser.record (s : Parser) (e : Error) : Parser :=
  { s with errors := s.errors ++ [e] }

/-- The state after the cursor has moved one position on. -/
def Parser.advance (s : Parser) : Parser :=
  { s with pos := s.pos + 1 }

/-- A soft-keyword test for the examples: the tag `other 7` is a soft keyword. -/
def sampleKeyword (t : TokenType) : Bool :=
  t == TokenType.other 7

/-- A token for the examples. -/
def tk (t : TokenType) (line col : Int) : Token :=
  { type := t, line := line, col := col, lexeme := "" }

/-- The tokens of the examples: `x ; record <eof>`, where `record` has the soft
keyword tag. -/
def sampleTokens : List Token :=
  [tk TokenType.Name 1 1, tk TokenType.Op_Semicolon 1 2, tk (TokenType.other 7) 2 1,
   tk TokenType.EndOfFile 3 1]

/-- A fresh parser over the tokens of the examples. -/
def sampleParser : Parser :=
  Parser.new sampleTokens

/-- The synchronization tokens, as the specification lists them: semicolon,
`return`, `break`, `local`, `global`, `function`, `if`, `while`, `for`,
`repeat`, `end`, `until`, `else`, `elseif`. -/
def synchronizationTokens : List TokenType :=
  [TokenType.Op_Semicolon, TokenType.K_return, TokenType.K_break, TokenType.K_local,
   TokenType.K_global, TokenType.K_function, TokenType.K_if, TokenType.K_while,
   TokenType.K_for, TokenType.K_repeat, TokenType.K_end, TokenType.K_until,
   TokenType.K_else, TokenType.K_elseif]

/-- The tokens at which the recovery loop stops, in the words of the
specification: EOF or a synchronization token. -/
def isEofOrSync (t : TokenType) : Prop :=
  t = TokenType.EndOfFile ∨ t ∈ synchronizationTokens

/-- The effect of one call of a cursor or diagnostics helper from state `s`: it
returns with the cursor at the same or a later position and nothing else
changed, or it returns after recording one diagnostic at the current token
with the list still shorter than `maxErrors`, or it raises the abort signal
after recording one diagnostic at the current token with the list at least
`maxErrors` long. -/
def CallEffect {β : Type} (s : Parser) : Outcome β → Prop
  | .undefined => True
  | .ret _ s1 =>
    (∃ q, s.pos ≤ q ∧
      s1 = { maxErrors := s.maxErrors, tokens := s.tokens, pos := q, errors := s.errors }) ∨
    (∃ tok msg, peekToken s 0 = some tok ∧ s1 = s.record (diagnosticAt msg tok) ∧
      s.errors.length + 1 < s.maxErrors)
  | .stop s1 =>
    ∃ tok msg, peekToken s 0 = some tok ∧ s1 = s.record (diagnosticAt msg tok) ∧
      s.maxErrors ≤ s.errors.length + 1

/-- The states from a call on: the state the call leaves, then the states of
the code that follows it when the call returns. -/
def Outcome.steps {β : Type} (o : Outcome β) (rest : β → Parser → List Parser) : List Parser :=
  match o with
  | .ret b s1 => s1 :: rest b s1
  | .stop s1 => [s1]
  | .undefined => []

/-- The states that running grammar code goes through: the state after each call
of `match`, `matchAny`, `consume`, `pushError` and `skipToNextStatement`, in
order, the last one being the state at the throw when the run is aborted. -/
def Grammar.trace {α : Type} (typeIsTealKeyword : TokenType → Bool) :
    Grammar α → Parser → List Parser
  | .done _, _ => []
  | .inspect k, s => (k s).trace typeIsTealKeyword s
  | .peekToken forward k, s =>
    match teal.peekToken s forward with
    | none => []
    | some tok => (k tok).trace typeIsTealKeyword s
  | .isAtEnd k, s =>
    match teal.isAtEnd s with
    | none => []
    | some b => (k b).trace typeIsTealKeyword s
  | .check t k, s =>
    match teal.check typeIsTealKeyword s t with
    | none => []
    | some b => (k b).trace typeIsTealKeyword s
  | .match_ t k, s =>
    (teal.match_ typeIsTealKeyword s t).steps fun b s1 => (k b).trace typeIsTealKeyword s1
  | .matchAny types k, s =>
    (teal.matchAny typeIsTealKeyword s types).steps fun b s1 => (k b).trace typeIsTealKeyword s1
  | .consume t errMsg k, s =>
    (teal.consume typeIsTealKeyword s t errMsg).steps fun r s1 => (k r).trace typeIsTealKeyword s1
  | .pushError msg k, s =>
    (teal.pushError s msg false).steps fun _ s1 => k.trace typeIsTealKeyword s1
  | .skipToNextStatement k, s =>
    (teal.skipToNextStatement s).steps fun _ s1 => k.trace typeIsTealKeyword s1

/-- An outcome meets `R` when it returns and `S` when it raises the abort signal. -/
def Outcome.Sat {α : Type} (R S : Parser → Prop) : Outcome α → Prop
  | .ret _ s => R s
  | .stop s => S s
  | .undefined => True

/-- Grammar code that records `n` diagnostics and then returns an empty chunk. -/
def pushErrors : Nat → Grammar (Option (List Unit))
  | 0 => .done (some [])
  | n + 1 => .pushError "unexpected token" (pushErrors n)

/-- The state in which `pushErrors` is aborted on the examples: ten diagnostics at
the first token. -/
def sampleAborted : Parser :=
  { maxErrors := 10, tokens := sampleTokens, pos := 0,
    errors := List.replicate 10 { message := "unexpected token", line := 1, col := 1 } }

/-- A fresh parser over the empty input: the EOF token alone. -/
def eofOnly : Parser :=
  Parser.new [tk TokenType.EndOfFile 1 1]

/-- The number of times the loop of `skipToNextStatement` executes `_pos++`, for
at most `fuel` iterations: `skipLoop` with a counter in place of the state. -/
def skipAdvances : Nat → Parser → Nat
  | 0, _ => 0
  | fuel + 1, s =>
    match isAtEnd s with
    | none => 0
    | some true => 0
    | some false =>
      match peekToken s 0 with
      | none => 0
      | some tok =>
        if isStatementBoundary tok.type then 0
        else skipAdvances fuel { s with pos := s.pos + 1 } + 1

/-! ## Grammar code that the sources declare and do not define -/

/-- Modelled from the spec: the statement list of a chunk, "a Block (ordered
sequence of Statements)". `AST.hpp`, which declares it, is missing; the
statement nodes are a parameter. -/
structure Block (Statement : Type) where
  statements : List Statement

/-- Modelled from the spec: the block-terminating keywords, the tokens that close
a block: `end`, `until`, `else`, `elseif`. -/
def isBlockTerminator (t : TokenType) : Bool :=
  t == TokenType.K_end || t == TokenType.K_until || t == TokenType.K_else ||
  t == TokenType.K_elseif

/-- Modelled from the spec: the statement loop of `parseChunk()`, which
`Parser.hpp` declares and does not define: it "parses one Block as an ordered
sequence of statements until a block-terminating keyword or EOF", "repeatedly
requesting the next statement", where a sub-rule "substitutes a placeholder node
(or omits the malformed statement)". The statement parser `parseStat` is a
parameter; the loop runs for at most `fuel` statements. -/
def parseChunkLoop {Statement : Type} (parseStat : Parser → Outcome (Option Statement)) :
    Nat → List Statement → Parser → Outcome (Option (Block Statement))
  | 0, _, _ => .undefined
  | fuel + 1, stmts, s =>
    match peekToken s 0 with
    | none => .undefined
    | some tok =>
      if tok.type == TokenType.EndOfFile || isBlockTerminator tok.type then
        .ret (some { statements := stmts }) s
      else
        (parseStat s).bind fun st s1 =>
          parseChunkLoop parseStat fuel
            (match st with
              | some node => stmts ++ [node]
              | none => stmts) s1

/-- Modelled from the spec: the function `parseChunk()`, the statement loop from
an empty statement list. -/
def parseChunk {Statement : Type} (parseStat : Parser → Outcome (Option Statement))
    (fuel : Nat) (s : Parser) : Outcome (Option (Block Statement)) :=
  parseChunkLoop parseStat fuel [] s

/-- Modelled from the spec: the tag of a number literal, one of the tags of
`AST.hpp` that `Parser.hpp` does not name. -/
def TokenType.Number : TokenType := TokenType.other 100

/-- Modelled from the spec: the tag of the operator `+`. -/
def TokenType.Op_Add : TokenType := TokenType.other 101

/-- Modelled from the spec: the tag of the operator `-`. -/
def TokenType.Op_Sub : TokenType := TokenType.other 102

/-- Modelled from the spec: the tag of the operator `*`. -/
def TokenType.Op_Mul : TokenType := TokenType.other 103

/-- Modelled from the spec: the tag of the exponentiation operator `^`. -/
def TokenType.Op_Pow : TokenType := TokenType.other 104

/-- Modelled from the spec: the tag of the string concatenation operator `..`. -/
def TokenType.Op_Concat : TokenType := TokenType.other 105

/-- Modelled from the spec: the expression nodes that precedence climbing builds
over literal operands: a literal with its token, a binary node with its
operator and two children, and the "placeholder error-expression node". -/
inductive Expression where
  | literal (tok : Token)
  | binary (op : TokenType) (lhs rhs : Expression)
  | error
  deriving DecidableEq, Repr

/-- Modelled from the spec: the function `isRightAssociative`, declared and not
defined in `Parser.hpp`: "exponentiation is the sole right-associative operator
in this grammar; string concatenation is also right-associative". -/
def isRightAssociative (op : TokenType) : Bool :=
  op == TokenType.Op_Pow || op == TokenType.Op_Concat

/-- Modelled from the spec: the operand of precedence climbing, "a unary/primary
operand", for the primary expressions that are number literals; "a missing
operand after a binary/unary operator emits a diagnostic and yields a
placeholder error-expression node". The prefix operators and the other primary
forms of `parseUnaryExpression` are left out. -/
def parseOperand (typeIsTealKeyword : TokenType → Bool) (s : Parser) : Outcome Expression :=
  (consume typeIsTealKeyword s TokenType.Number "expected expression").bind fun r s1 =>
    match r with
    | some tok => .ret (.literal tok) s1
    | none => .ret .error s1

mutual

/-- Modelled from the spec: the function `parseExpRec(minPrec)`, declared and not
defined in `Parser.hpp`: "a single recursive function takes a minimum-precedence
threshold; it parses a unary/primary operand, then repeatedly looks ahead for a
binary operator whose precedence is ≥ the threshold". The precedence table
`getBinaryPrecedence`, of which the spec gives no entry, is a parameter; a tag
that is no binary operator has a precedence below every threshold. The
recursion runs for at most `fuel` calls. -/
def parseExpRec (typeIsTealKeyword : TokenType → Bool) (getBinaryPrecedence : TokenType → Int) :
    Nat → Int → Parser → Outcome Expression
  | 0, _, _ => .undefined
  | fuel + 1, minPrec, s =>
    (parseOperand typeIsTealKeyword s).bind fun left s1 =>
      parseExpLoop typeIsTealKeyword getBinaryPrecedence fuel minPrec left s1

/-- Modelled from the spec: the loop of `parseExpRec`: it "repeatedly looks ahead
for a binary operator whose precedence is ≥ the threshold, consumes it, and
recursively parses the right-hand operand with a threshold equal to (operator
precedence + 1) for left-associative operators or equal to the operator's own
precedence for right-associative ones". -/
def parseExpLoop (typeIsTealKeyword : TokenType → Bool) (getBinaryPrecedence : TokenType → Int) :
    Nat → Int → Expression → Parser → Outcome Expression
  | 0, _, _, _ => .undefined
  | fuel + 1, minPrec, left, s =>
    match peekToken s 0 with
    | none => .undefined
    | some tok =>
      if getBinaryPrecedence tok.type < minPrec then .ret left s
      else
        (parseExpRec typeIsTealKeyword getBinaryPrecedence fuel
          (if isRightAssociative tok.type then getBinaryPrecedence tok.type
           else getBinaryPrecedence tok.type + 1)
          { s with pos := s.pos + 1 }).bind fun right s2 =>
            parseExpLoop typeIsTealKeyword getBinaryPrecedence fuel minPrec
              (.binary tok.type left right) s2

end

/-- A number literal of the examples, on line 1. -/
def num (lexeme : String) (col : Int) : Token :=
  { type := TokenType.Number, line := 1, col := col, lexeme := lexeme }

/-- The tokens of `1+2*3`. -/
def tokens_1_add_2_mul_3 : List Token :=
  [num "1" 1, tk TokenType.Op_Add 1 2, num "2" 3, tk TokenType.Op_Mul 1 4, num "3" 5,
   tk TokenType.EndOfFile 1 6]

/-- The tokens of `2^3^2`. -/
def tokens_2_pow_3_pow_2 : List Token :=
  [num "2" 1, tk TokenType.Op_Pow 1 2, num "3" 3, tk TokenType.Op_Pow 1 4, num "2" 5,
   tk TokenType.EndOfFile 1 6]

/-- The tokens of `2-3-2`. -/
def tokens_2_sub_3_sub_2 : List Token :=
  [num "2" 1, tk TokenType.Op_Sub 1 2, num "3" 3, tk TokenType.Op_Sub 1 4, num "2" 5,
   tk TokenType.EndOfFile 1 6]

/-- A precedence table for the examples, with the levels of the Lua reference
manual for the four operators and `-1` for a tag that is no binary operator. -/
def samplePrecedence (op : TokenType) : Int :=
  if op = TokenType.Op_Add ∨ op = TokenType.Op_Sub then 10
  else if op = TokenType.Op_Mul then 11
  else if op = TokenType.Op_Pow then 14
  else -1

/-- A fresh parser over `toks` whose cursor has moved to index `k`. -/
def cursorAt (toks : List Token) (k : Nat) : Parser :=
  { maxErrors := 10, tokens := toks, pos := k, errors := [] }

/-- The threshold with which the right-hand operand of `op` is parsed: the
precedence of `op` when it is right-associative, one more when it is not. -/
def rightThreshold (getBinaryPrecedence : TokenType → Int) (op : TokenType) : Int :=
  if isRightAssociative op then getBinaryPrecedence op else getBinaryPrecedence op + 1

/-! ## The cursor primitives -/

/-- The token under the cursor is the one at index `_pos`. -/
theorem peekToken_zero (s : Parser) : peekToken s 0 = s.tokens[s.pos]? := by
  simp [peekToken]

/-- What `pushError` does when a token is under the cursor. -/
theorem pushError_of_peek (s : Parser) (msg : String) (nothrow : Bool) (tok : Token)
    (h : peekToken s 0 = some tok) :
    pushError s msg nothrow =
      if s.maxErrors ≤ s.errors.length + 1 ∧ nothrow = false
      then .stop (s.record (diagnosticAt msg tok))
      else .ret () (s.record (diagnosticAt msg tok)) := by
  simp only [pushError, h, Parser.record, diagnosticAt]
  by_cases hc : s.maxErrors ≤ s.errors.length + 1 <;> cases nothrow <;> simp [hc]

/-- C1: when `check(t)` is false, `consume(t, errMsg)` appends exactly one
diagnostic, with message `errMsg` and the line and column of the current token,
and leaves the cursor where it was; it then returns the empty result, or raises
the abort signal when the cap is reached. -/
theorem consume_failure (typeIsTealKeyword : TokenType → Bool) (s : Parser) (t : TokenType)
    (errMsg : String) (h : check typeIsTealKeyword s t = some false) :
    ∃ tok s1, peekToken s 0 = some tok ∧
      s1.errors = s.errors ++ [{ message := errMsg, line := tok.line, col := tok.col }] ∧
      s1.pos = s.pos ∧ s1.tokens = s.tokens ∧ s1.maxErrors = s.maxErrors ∧
      consume typeIsTealKeyword s t errMsg =
        if s.maxErrors ≤ s1.errors.length then .stop s1 else .ret none s1 := by
  cases hp : peekToken s 0 with
  | none => simp [check, hp] at h
  | some tok =>
    refine ⟨tok, s.record (diagnosticAt errMsg tok), rfl, rfl, rfl, rfl, rfl, ?_⟩
    simp only [consume, h, pushError_of_peek s errMsg false tok hp]
    by_cases hc : s.maxErrors ≤ s.errors.length + 1 <;>
      simp [hc, Outcome.bind, Parser.record]

/-- Witness of C1: `consume(K_end, "expected end")` on the first token of the examples. -/
theorem consume_failure_witness :
    check sampleKeyword sampleParser TokenType.K_end = some false ∧
    ∃ tok s1, peekToken sampleParser 0 = some tok ∧
      s1.errors = sampleParser.errors ++
        [{ message := "expected end", line := tok.line, col := tok.col }] ∧
      s1.pos = sampleParser.pos ∧ s1.tokens = sampleParser.tokens ∧
      s1.maxErrors = sampleParser.maxErrors ∧
      consume sampleKeyword sampleParser TokenType.K_end "expected end" =
        if sampleParser.maxErrors ≤ s1.errors.length then .stop s1 else .ret none s1 :=
  ⟨by decide, consume_failure sampleKeyword sampleParser TokenType.K_end "expected end" (by decide)⟩

/-- C3: `pushError(msg)` in its default mode appends exactly the diagnostic
`{msg, line, col}` of the current token at the end of the list, leaves the
cursor unchanged, and raises the abort signal if and only if the list is then at
least `maxErrors` long. -/
theorem pushError_default (s : Parser) (msg : String) (tok : Token)
    (h : peekToken s 0 = some tok) :
    ∃ s1, s1.errors = s.errors ++ [{ message := msg, line := tok.line, col := tok.col }] ∧
      s1.pos = s.pos ∧ s1.tokens = s.tokens ∧ s1.maxErrors = s.maxErrors ∧
      (pushError s msg false = .stop s1 ∨ pushError s msg false = .ret () s1) ∧
      (pushError s msg false = .stop s1 ↔ s1.maxErrors ≤ s1.errors.length) := by
  refine ⟨s.record (diagnosticAt msg tok), rfl, rfl, rfl, rfl, ?_, ?_⟩ <;>
    rw [pushError_of_peek s msg false tok h] <;>
    by_cases hc : s.maxErrors ≤ s.errors.length + 1 <;>
    simp [hc, Parser.record]

/-- Witness of C3: the first diagnostic of a fresh parser. -/
theorem pushError_default_witness :
    peekToken sampleParser 0 = some (tk TokenType.Name 1 1) ∧
    ∃ s1, s1.errors = sampleParser.errors ++
        [{ message := "bad", line := (tk TokenType.Name 1 1).line,
           col := (tk TokenType.Name 1 1).col }] ∧
      s1.pos = sampleParser.pos ∧ s1.tokens = sampleParser.tokens ∧
      s1.maxErrors = sampleParser.maxErrors ∧
      (pushError sampleParser "bad" false = .stop s1 ∨
        pushError sampleParser "bad" false = .ret () s1) ∧
      (pushError sampleParser "bad" false = .stop s1 ↔ s1.maxErrors ≤ s1.errors.length) :=
  ⟨by decide, pushError_default sampleParser "bad" (tk TokenType.Name 1 1) (by decide)⟩

/-- C7: if `check(t)` holds, `match(t)` returns true and moves the cursor on by
exactly one position; otherwise it returns false and leaves the cursor where it
was; the diagnostics are the same in both cases. -/
theorem match_spec (typeIsTealKeyword : TokenType → Bool) (s : Parser) (t : TokenType) :
    (check typeIsTealKeyword s t = some true →
      match_ typeIsTealKeyword s t =
        .ret true { maxErrors := s.maxErrors, tokens := s.tokens, pos := s.pos + 1,
                    errors := s.errors }) ∧
    (check typeIsTealKeyword s t = some false → match_ typeIsTealKeyword s t = .ret false s) := by
  constructor <;> intro h <;> simp [match_, h]

/-- Witness of C7: `match(Name)` and `match(K_end)` on the first token of the examples. -/
theorem match_spec_witness :
    check sampleKeyword sampleParser TokenType.Name = some true ∧
    match_ sampleKeyword sampleParser TokenType.Name =
      .ret true { maxErrors := 10, tokens := sampleTokens, pos := 1, errors := [] } ∧
    check sampleKeyword sampleParser TokenType.K_end = some false ∧
    match_ sampleKeyword sampleParser TokenType.K_end = .ret false sampleParser :=
  ⟨by decide, (match_spec sampleKeyword sampleParser TokenType.Name).1 (by decide),
   by decide, (match_spec sampleKeyword sampleParser TokenType.K_end).2 (by decide)⟩

/-- C8: `check(t)` is true if and only if the current token's type is `t`, or `t`
is `Name` and the current token's type is a soft keyword; a soft-keyword token
does not satisfy `check(t)` for a tag `t` that is neither `Name` nor its own
type. -/
theorem check_spec (typeIsTealKeyword : TokenType → Bool) (s : Parser) (t : TokenType) :
    (check typeIsTealKeyword s t = some true ↔
      ∃ tok, peekToken s 0 = some tok ∧
        (tok.type = t ∨ (t = TokenType.Name ∧ typeIsTealKeyword tok.type = true))) ∧
    (∀ tok, peekToken s 0 = some tok → typeIsTealKeyword tok.type = true →
      t ≠ TokenType.Name → t ≠ tok.type → check typeIsTealKeyword s t = some false) := by
  constructor
  · cases hp : peekToken s 0 with
    | none => simp [check, hp]
    | some tok =>
      simp only [check, hp, Option.map_some', Option.some.injEq, Bool.or_eq_true,
        Bool.and_eq_true, beq_iff_eq, exists_eq_left']
      tauto
  · intro tok hp _ hName hOwn
    have hne : ¬ tok.type = t := fun e => hOwn e.symm
    simp [check, hp, hName, hne]

/-- Witness of C8: on the soft keyword of the examples, `check(Name)` holds and
`check(K_end)` does not. -/
theorem check_spec_witness :
    peekToken sampleParser.advance.advance 0 = some (tk (TokenType.other 7) 2 1) ∧
    check sampleKeyword sampleParser.advance.advance TokenType.Name = some true ∧
    check sampleKeyword sampleParser.advance.advance TokenType.K_end = some false :=
  ⟨by decide,
   (check_spec sampleKeyword sampleParser.advance.advance TokenType.Name).1.2
     ⟨tk (TokenType.other 7) 2 1, by decide, Or.inr ⟨rfl, by decide⟩⟩,
   (check_spec sampleKeyword sampleParser.advance.advance TokenType.K_end).2
     (tk (TokenType.other 7) 2 1) (by decide) (by decide) (by decide) (by decide)⟩

/-- The `for` loop of `matchAny` returns true and moves the cursor on by one
position when some tag of the list passes `check`, and returns false in the same
state when none does. -/
theorem matchAnyLoop_spec (typeIsTealKeyword : TokenType → Bool) (s : Parser) (tok : Token)
    (hp : peekToken s 0 = some tok) (types : List TokenType) :
    ((∃ t ∈ types, check typeIsTealKeyword s t = some true) →
      matchAnyLoop typeIsTealKeyword s types = .ret true s.advance) ∧
    ((¬ ∃ t ∈ types, check typeIsTealKeyword s t = some true) →
      matchAnyLoop typeIsTealKeyword s types = .ret false s) := by
  induction types with
  | nil => simp [matchAnyLoop]
  | cons t ts ih =>
    cases hc : check typeIsTealKeyword s t with
    | none => simp [check, hp] at hc
    | some b =>
      cases b with
      | true => simp [matchAnyLoop, hc, Parser.advance]
      | false =>
        simp only [matchAnyLoop, hc, List.mem_cons, exists_eq_or_imp]
        simpa using ih

/-- C9: `matchAny(ts)` returns true and moves the cursor on by exactly one
position if and only if the current token is not EOF and `check(t)` holds for
some `t` in `ts`; otherwise it returns false and leaves the state unchanged. On
an EOF token it returns false without moving, whatever `ts` holds. -/
theorem matchAny_spec (typeIsTealKeyword : TokenType → Bool) (s : Parser) (tok : Token)
    (hp : peekToken s 0 = some tok) (ts : List TokenType) :
    (matchAny typeIsTealKeyword s ts =
        .ret true { maxErrors := s.maxErrors, tokens := s.tokens, pos := s.pos + 1,
                    errors := s.errors } ↔
      tok.type ≠ TokenType.EndOfFile ∧ ∃ t ∈ ts, check typeIsTealKeyword s t = some true) ∧
    ((¬ (tok.type ≠ TokenType.EndOfFile ∧ ∃ t ∈ ts, check typeIsTealKeyword s t = some true)) →
      matchAny typeIsTealKeyword s ts = .ret false s) ∧
    (tok.type = TokenType.EndOfFile → matchAny typeIsTealKeyword s ts = .ret false s) := by
  have hloop := matchAnyLoop_spec typeIsTealKeyword s tok hp ts
  have heof : check typeIsTealKeyword s TokenType.EndOfFile =
      some (tok.type == TokenType.EndOfFile) := by
    have hne : (TokenType.EndOfFile == TokenType.Name) = false := by decide
    simp [check, hp, hne]
  by_cases hE : tok.type = TokenType.EndOfFile
  · have hb : (tok.type == TokenType.EndOfFile) = true := by simp [hE]
    rw [hb] at heof
    simp [matchAny, heof, hE]
  · have hb : (tok.type == TokenType.EndOfFile) = false := by simp [hE]
    rw [hb] at heof
    by_cases hex : ∃ t ∈ ts, check typeIsTealKeyword s t = some true
    · have h1 := hloop.1 hex
      simp only [Parser.advance] at h1
      simp [matchAny, heof, hE, h1, hex]
    · have h2 := hloop.2 hex
      simp [matchAny, heof, hE, h2, hex]

/-- Witness of C9: `matchAny({K_end, Name})` on the first token of the examples,
and `matchAny({EndOfFile})` on their EOF token. -/
theorem matchAny_spec_witness :
    matchAny sampleKeyword sampleParser [TokenType.K_end, TokenType.Name] =
      .ret true { maxErrors := 10, tokens := sampleTokens, pos := 1, errors := [] } ∧
    matchAny sampleKeyword sampleParser.advance.advance.advance [TokenType.EndOfFile] =
      .ret false sampleParser.advance.advance.advance :=
  ⟨(matchAny_spec sampleKeyword sampleParser (tk TokenType.Name 1 1) (by decide)
      [TokenType.K_end, TokenType.Name]).1.2
      ⟨by decide, TokenType.Name, by decide, by decide⟩,
   (matchAny_spec sampleKeyword sampleParser.advance.advance.advance
      (tk TokenType.EndOfFile 3 1) (by decide) [TokenType.EndOfFile]).2.2 (by decide)⟩

/-- C10: when `check(t)` holds, `consume(t, errMsg)` returns the token that was
current before the call, moves the cursor on by exactly one position, records
no diagnostic and does not raise the abort signal. -/
theorem consume_success (typeIsTealKeyword : TokenType → Bool) (s : Parser) (t : TokenType)
    (errMsg : String) (h : check typeIsTealKeyword s t = some true) :
    ∃ tok, peekToken s 0 = some tok ∧
      consume typeIsTealKeyword s t errMsg =
        .ret (some tok) { maxErrors := s.maxErrors, tokens := s.tokens, pos := s.pos + 1,
                          errors := s.errors } := by
  cases hp : peekToken s 0 with
  | none => simp [check, hp] at h
  | some tok => exact ⟨tok, rfl, by simp [consume, h, hp]⟩

/-- Witness of C10: `consume(Name, "expected name")` on the first token of the examples. -/
theorem consume_success_witness :
    check sampleKeyword sampleParser TokenType.Name = some true ∧
    ∃ tok, peekToken sampleParser 0 = some tok ∧
      consume sampleKeyword sampleParser TokenType.Name "expected name" =
        .ret (some tok) { maxErrors := sampleParser.maxErrors, tokens := sampleParser.tokens,
                          pos := sampleParser.pos + 1, errors := sampleParser.errors } :=
  ⟨by decide, consume_success sampleKeyword sampleParser TokenType.Name "expected name" (by decide)⟩

/-! ## Panic-mode recovery -/

/-- The test of the recovery loop accepts exactly the synchronization tokens. -/
theorem isStatementBoundary_iff (t : TokenType) :
    isStatementBoundary t = true ↔ t ∈ synchronizationTokens := by
  cases t <;> simp [isStatementBoundary, synchronizationTokens]

/-- The recovery loop, run with the number of tokens left as fuel, stops at the
first EOF or synchronization token from the cursor on, if there is one. -/
theorem skipLoop_spec (n : Nat) : ∀ s : Parser, s.tokens.length - s.pos = n →
    (∃ j tok, s.pos ≤ j ∧ s.tokens[j]? = some tok ∧ isEofOrSync tok.type) →
    ∃ q tokq, s.pos ≤ q ∧ s.tokens[q]? = some tokq ∧ isEofOrSync tokq.type ∧
      (∀ i tok, s.pos ≤ i → i < q → s.tokens[i]? = some tok → ¬ isEofOrSync tok.type) ∧
      skipLoop n s =
        .ret () { maxErrors := s.maxErrors, tokens := s.tokens, pos := q, errors := s.errors } := by
  induction n with
  | zero =>
    intro s hn ⟨j, tok, hj, hget, _⟩
    have hlt : j < s.tokens.length := (List.getElem?_eq_some_iff.mp hget).1
    omega
  | succ n ih =>
    intro s hn ⟨j, tokj, hj, hgetj, hstopj⟩
    have hlt : s.pos < s.tokens.length := by omega
    have hcur : s.tokens[s.pos]? = some (s.tokens[s.pos]) := List.getElem?_eq_getElem hlt
    have hpeek : peekToken s 0 = some (s.tokens[s.pos]) := by rw [peekToken_zero, hcur]
    by_cases hstop : isEofOrSync (s.tokens[s.pos]).type
    · refine ⟨s.pos, s.tokens[s.pos], le_refl _, hcur, hstop, fun i _ h1 h2 _ => by omega, ?_⟩
      rcases hstop with hE | hS
      · simp [skipLoop, isAtEnd, hpeek, hE]
      · have hB := (isStatementBoundary_iff _).2 hS
        by_cases hE : (s.tokens[s.pos]).type = TokenType.EndOfFile
        · simp [skipLoop, isAtEnd, hpeek, hE]
        · have hb : ((s.tokens[s.pos]).type == TokenType.EndOfFile) = false := by simp [hE]
          simp [skipLoop, isAtEnd, hpeek, hb, hB]
    · have hE : ¬ (s.tokens[s.pos]).type = TokenType.EndOfFile := fun h => hstop (Or.inl h)
      have hB : ¬ isStatementBoundary (s.tokens[s.pos]).type = true :=
        fun h => hstop (Or.inr ((isStatementBoundary_iff _).1 h))
      have hjne : j ≠ s.pos := by
        intro e
        subst e
        rw [hcur] at hgetj
        cases hgetj
        exact hstop hstopj
      obtain ⟨q, tokq, hq, hgetq, hstopq, hbefore, hrun⟩ :=
        ih { s with pos := s.pos + 1 } (by simp only []; omega)
          ⟨j, tokj, by simp only []; omega, hgetj, hstopj⟩
      simp only [] at hq hgetq hbefore hrun
      refine ⟨q, tokq, by omega, hgetq, hstopq, ?_, ?_⟩
      · intro i tok h1 h2 hget
        by_cases hi : i = s.pos
        · subst hi
          rw [hcur] at hget
          cases hget
          exact hstop
        · exact hbefore i tok (by omega) h2 hget
      · have hb : ((s.tokens[s.pos]).type == TokenType.EndOfFile) = false := by simp [hE]
        simp [skipLoop, isAtEnd, hpeek, hb, hB, hrun]

/-- The loop equation of `skipToNextStatement`: one test of `isAtEnd()`, one test
of the token under the cursor, and then the loop again from the next position.
The fuel of `skipLoop` never runs out before the tokens do. -/
theorem skipToNextStatement_loop (s : Parser) :
    skipToNextStatement s =
      match isAtEnd s with
      | none => .undefined
      | some true => .ret () s
      | some false =>
        match peekToken s 0 with
        | none => .undefined
        | some tok =>
          if isStatementBoundary tok.type then .ret () s
          else skipToNextStatement { s with pos := s.pos + 1 } := by
  by_cases hlt : s.pos < s.tokens.length
  · obtain ⟨n, hn⟩ : ∃ n, s.tokens.length - s.pos = n + 1 := ⟨s.tokens.length - s.pos - 1, by omega⟩
    have hn1 : s.tokens.length - (s.pos + 1) = n := by omega
    simp only [skipToNextStatement, hn, hn1, skipLoop]
  · have hz : s.tokens.length - s.pos = 0 := by omega
    have hp : peekToken s 0 = none := by
      rw [peekToken_zero]
      exact List.getElem?_eq_none (by omega)
    simp [skipToNextStatement, hz, skipLoop, isAtEnd, hp]

/-- C6: on an EOF-terminated token sequence and an in-bounds cursor `p`,
`skipToNextStatement` leaves the cursor at the smallest index `q ≥ p` whose
token is EOF or a synchronization token: no token in `[p, q)` is either, the
token at `q` is not consumed, and the diagnostics are unchanged. -/
theorem skipToNextStatement_spec (s : Parser) (last : Token)
    (hlast : s.tokens.getLast? = some last) (heof : last.type = TokenType.EndOfFile)
    (hpos : s.pos < s.tokens.length) :
    ∃ q tokq, s.pos ≤ q ∧ s.tokens[q]? = some tokq ∧
      (tokq.type = TokenType.EndOfFile ∨ tokq.type ∈ synchronizationTokens) ∧
      (∀ i tok, s.pos ≤ i → i < q → s.tokens[i]? = some tok →
        ¬ (tok.type = TokenType.EndOfFile ∨ tok.type ∈ synchronizationTokens)) ∧
      skipToNextStatement s =
        .ret () { maxErrors := s.maxErrors, tokens := s.tokens, pos := q, errors := s.errors } := by
  have hget : s.tokens[s.tokens.length - 1]? = some last := by
    rw [← hlast, List.getLast?_eq_getElem?]
  exact skipLoop_spec (s.tokens.length - s.pos) s rfl
    ⟨s.tokens.length - 1, last, by omega, hget, Or.inl heof⟩

/-- Witness of C6: recovery from the soft keyword of the examples stops at their EOF. -/
theorem skipToNextStatement_spec_witness :
    sampleParser.advance.advance.tokens.getLast? = some (tk TokenType.EndOfFile 3 1) ∧
    (tk TokenType.EndOfFile 3 1).type = TokenType.EndOfFile ∧
    sampleParser.advance.advance.pos < sampleParser.advance.advance.tokens.length ∧
    ∃ q tokq, sampleParser.advance.advance.pos ≤ q ∧
      sampleParser.advance.advance.tokens[q]? = some tokq ∧
      (tokq.type = TokenType.EndOfFile ∨ tokq.type ∈ synchronizationTokens) ∧
      (∀ i tok, sampleParser.advance.advance.pos ≤ i → i < q →
        sampleParser.advance.advance.tokens[i]? = some tok →
        ¬ (tok.type = TokenType.EndOfFile ∨ tok.type ∈ synchronizationTokens)) ∧
      skipToNextStatement sampleParser.advance.advance =
        .ret () { maxErrors := sampleParser.advance.advance.maxErrors,
                  tokens := sampleParser.advance.advance.tokens, pos := q,
                  errors := sampleParser.advance.advance.errors } :=
  ⟨by decide, rfl, by decide,
   skipToNextStatement_spec sampleParser.advance.advance (tk TokenType.EndOfFile 3 1)
     (by decide) rfl (by decide)⟩

/-! ## What one call can do to the parser -/

/-- The effect of `match`. -/
theorem match_effect (typeIsTealKeyword : TokenType → Bool) (s : Parser) (t : TokenType) :
    CallEffect s (match_ typeIsTealKeyword s t) := by
  unfold match_
  cases check typeIsTealKeyword s t with
  | none => trivial
  | some b =>
    cases b with
    | true => exact Or.inl ⟨s.pos + 1, Nat.le_succ _, rfl⟩
    | false => exact Or.inl ⟨s.pos, le_refl _, rfl⟩

/-- The effect of the loop of `matchAny`. -/
theorem matchAnyLoop_effect (typeIsTealKeyword : TokenType → Bool) (s : Parser)
    (types : List TokenType) : CallEffect s (matchAnyLoop typeIsTealKeyword s types) := by
  induction types with
  | nil => exact Or.inl ⟨s.pos, le_refl _, rfl⟩
  | cons t ts ih =>
    unfold matchAnyLoop
    cases check typeIsTealKeyword s t with
    | none => trivial
    | some b =>
      cases b with
      | true => exact Or.inl ⟨s.pos + 1, Nat.le_succ _, rfl⟩
      | false => exact ih

/-- The effect of `matchAny`. -/
theorem matchAny_effect (typeIsTealKeyword : TokenType → Bool) (s : Parser)
    (types : List TokenType) : CallEffect s (matchAny typeIsTealKeyword s types) := by
  unfold matchAny
  cases check typeIsTealKeyword s TokenType.EndOfFile with
  | none => trivial
  | some b =>
    cases b with
    | true => exact Or.inl ⟨s.pos, le_refl _, rfl⟩
    | false => exact matchAnyLoop_effect typeIsTealKeyword s types

/-- The effect of `pushError(msg)`. -/
theorem pushError_effect (s : Parser) (msg : String) : CallEffect s (pushError s msg false) := by
  cases hp : peekToken s 0 with
  | none => simp [pushError, hp, CallEffect]
  | some tok =>
    rw [pushError_of_peek s msg false tok hp]
    by_cases hc : s.maxErrors ≤ s.errors.length + 1
    · simp only [hc, and_self, if_true]
      exact ⟨tok, msg, hp, rfl, hc⟩
    · simp only [hc, false_and, if_false]
      exact Or.inr ⟨tok, msg, hp, rfl, by omega⟩

/-- The effect of `consume`. -/
theorem consume_effect (typeIsTealKeyword : TokenType → Bool) (s : Parser) (t : TokenType)
    (errMsg : String) : CallEffect s (consume typeIsTealKeyword s t errMsg) := by
  unfold consume
  cases check typeIsTealKeyword s t with
  | none => trivial
  | some b =>
    cases b with
    | true =>
      cases peekToken s 0 with
      | none => trivial
      | some tok => exact Or.inl ⟨s.pos + 1, Nat.le_succ _, rfl⟩
    | false =>
      have h := pushError_effect s errMsg
      cases hr : pushError s errMsg false with
      | ret u s1 => rw [hr] at h; exact h
      | stop s1 => rw [hr] at h; exact h
      | undefined => trivial

/-- The effect of the recovery loop, seen from an earlier cursor position `p`. -/
theorem skipLoop_effect (fuel : Nat) : ∀ s : Parser, ∀ p, p ≤ s.pos →
    CallEffect { maxErrors := s.maxErrors, tokens := s.tokens, pos := p, errors := s.errors }
      (skipLoop fuel s) := by
  induction fuel with
  | zero => intro s p _; trivial
  | succ n ih =>
    intro s p hp
    unfold skipLoop
    cases isAtEnd s with
    | none => trivial
    | some b =>
      cases b with
      | true => exact Or.inl ⟨s.pos, hp, rfl⟩
      | false =>
        cases peekToken s 0 with
        | none => trivial
        | some tok =>
          by_cases hB : isStatementBoundary tok.type = true
          · simp only [hB, if_true]
            exact Or.inl ⟨s.pos, hp, rfl⟩
          · simp only [hB]
            exact ih { s with pos := s.pos + 1 } p (Nat.le_succ_of_le hp)

/-- The effect of `skipToNextStatement`. -/
theorem skipToNextStatement_effect (s : Parser) : CallEffect s (skipToNextStatement s) :=
  skipLoop_effect _ s s.pos (le_refl _)

/-! ## Grammar code -/

/-- One step of an invariant: if every call from a state in `R` ends in `R` when
it returns and in `S` when it aborts, so does the call followed by the rest of
the grammar code, and so does every state on the way. -/
theorem Grammar.step_sat {α β : Type} (R S : Parser → Prop) (o : Outcome β) (s : Parser)
    (heff : CallEffect s o) (hR : R s)
    (hcall : ∀ s (γ : Type) (o : Outcome γ), CallEffect s o → R s → o.Sat R S)
    (rest : β → Parser → Outcome α) (steps : β → Parser → List Parser)
    (ih : ∀ b s1, R s1 → (rest b s1).Sat R S ∧ ∀ s2 ∈ steps b s1, R s2 ∨ S s2) :
    (o.bind rest).Sat R S ∧ ∀ s2 ∈ o.steps steps, R s2 ∨ S s2 := by
  have h := hcall s β o heff hR
  cases o with
  | ret b s1 =>
    refine ⟨(ih b s1 h).1, ?_⟩
    intro s2 hs2
    simp only [Outcome.steps] at hs2
    rcases List.mem_cons.1 hs2 with e | hmem
    · exact Or.inl (e ▸ h)
    · exact (ih b s1 h).2 s2 hmem
  | stop s1 =>
    refine ⟨h, ?_⟩
    intro s2 hs2
    simp only [Outcome.steps, List.mem_singleton] at hs2
    exact Or.inr (hs2 ▸ h)
  | undefined => exact ⟨trivial, fun s2 hs2 => by cases hs2⟩

/-- An invariant of the calls is an invariant of grammar code: from a state in
`R`, the run ends in `R` when it returns and in `S` when it is aborted, and
every state on the way is in `R` or, for the state at the throw, in `S`. -/
theorem Grammar.run_sat {α : Type} (typeIsTealKeyword : TokenType → Bool) (R S : Parser → Prop)
    (hcall : ∀ s (γ : Type) (o : Outcome γ), CallEffect s o → R s → o.Sat R S)
    (g : Grammar α) : ∀ s, R s →
      (g.run typeIsTealKeyword s).Sat R S ∧ ∀ s2 ∈ g.trace typeIsTealKeyword s, R s2 ∨ S s2 := by
  induction g with
  | done a => intro s hR; exact ⟨hR, fun s2 hs2 => by cases hs2⟩
  | inspect k ih => intro s hR; exact ih s s hR
  | peekToken forward k ih =>
    intro s hR
    simp only [Grammar.run, Grammar.trace]
    cases teal.peekToken s forward with
    | none => exact ⟨trivial, fun s2 hs2 => by cases hs2⟩
    | some tok => exact ih tok s hR
  | isAtEnd k ih =>
    intro s hR
    simp only [Grammar.run, Grammar.trace]
    cases teal.isAtEnd s with
    | none => exact ⟨trivial, fun s2 hs2 => by cases hs2⟩
    | some b => exact ih b s hR
  | check t k ih =>
    intro s hR
    simp only [Grammar.run, Grammar.trace]
    cases teal.check typeIsTealKeyword s t with
    | none => exact ⟨trivial, fun s2 hs2 => by cases hs2⟩
    | some b => exact ih b s hR
  | match_ t k ih =>
    intro s hR
    exact Grammar.step_sat R S _ s (match_effect typeIsTealKeyword s t) hR hcall
      (fun b s1 => (k b).run typeIsTealKeyword s1) (fun b s1 => (k b).trace typeIsTealKeyword s1)
      (fun b s1 h => ih b s1 h)
  | matchAny types k ih =>
    intro s hR
    exact Grammar.step_sat R S _ s (matchAny_effect typeIsTealKeyword s types) hR hcall
      (fun b s1 => (k b).run typeIsTealKeyword s1) (fun b s1 => (k b).trace typeIsTealKeyword s1)
      (fun b s1 h => ih b s1 h)
  | consume t errMsg k ih =>
    intro s hR
    exact Grammar.step_sat R S _ s (consume_effect typeIsTealKeyword s t errMsg) hR hcall
      (fun b s1 => (k b).run typeIsTealKeyword s1) (fun b s1 => (k b).trace typeIsTealKeyword s1)
      (fun b s1 h => ih b s1 h)
  | pushError msg k ih =>
    intro s hR
    exact Grammar.step_sat R S _ s (pushError_effect s msg) hR hcall
      (fun _ s1 => k.run typeIsTealKeyword s1) (fun _ s1 => k.trace typeIsTealKeyword s1)
      (fun _ s1 h => ih s1 h)
  | skipToNextStatement k ih =>
    intro s hR
    exact Grammar.step_sat R S _ s (skipToNextStatement_effect s) hR hcall
      (fun _ s1 => k.run typeIsTealKeyword s1) (fun _ s1 => k.trace typeIsTealKeyword s1)
      (fun _ s1 h => ih s1 h)

/-- Recording a diagnostic does not change what the cursor reads. -/
theorem peekToken_record (s : Parser) (e : Error) (forward : Int) :
    peekToken (s.record e) forward = peekToken s forward := rfl

/-- A call that raises the abort signal leaves a token under the cursor. -/
theorem call_stop_peek (s : Parser) (γ : Type) (o : Outcome γ) (heff : CallEffect s o)
    (_ : True) : o.Sat (fun _ => True) (fun s1 => ∃ tok, peekToken s1 0 = some tok) := by
  cases o with
  | ret b s1 => trivial
  | stop s1 =>
    obtain ⟨tok, msg, hp, hs1, _⟩ := heff
    exact ⟨tok, by rw [hs1, peekToken_record, hp]⟩
  | undefined => trivial

/-- A call from a state with fewer than `cap` diagnostics returns with fewer than
`cap` diagnostics, or raises the abort signal with exactly `cap`. -/
theorem call_bounded (cap : Nat) (s : Parser) (γ : Type) (o : Outcome γ)
    (heff : CallEffect s o) (hs : s.maxErrors = cap ∧ s.errors.length < cap) :
    o.Sat (fun s1 => s1.maxErrors = cap ∧ s1.errors.length < cap)
      (fun s1 => s1.maxErrors = cap ∧ s1.errors.length = cap ∧
        ∃ tok, peekToken s1 0 = some tok) := by
  obtain ⟨hcap, hlen⟩ := hs
  cases o with
  | ret b s1 =>
    rcases heff with ⟨q, _, hs1⟩ | ⟨tok, msg, _, hs1, hlt⟩
    · subst hs1
      exact ⟨hcap, hlen⟩
    · subst hs1
      refine ⟨hcap, ?_⟩
      simp only [Parser.record, List.length_append, List.length_singleton]
      omega
  | stop s1 =>
    obtain ⟨tok, msg, hp, hs1, hge⟩ := heff
    subst hs1
    refine ⟨hcap, ?_, tok, by rw [peekToken_record, hp]⟩
    simp only [Parser.record, List.length_append, List.length_singleton]
    omega
  | undefined => trivial

/-- The summary push of `parse()`: with a token under the cursor it records the
summary diagnostic and returns. -/
theorem parseWith_stop {Block : Type} (parseChunk : Parser → Outcome (Option Block))
    (s s1 : Parser) (tok : Token) (h : parseChunk s = .stop s1)
    (hp : peekToken s1 0 = some tok) :
    parseWith parseChunk s =
      .ret none (s1.record (diagnosticAt (tooManyErrors s1.errors.length) tok)) := by
  simp [parseWith, h, pushError_of_peek s1 _ true tok hp, Outcome.bind]

/-- C4: when the grammar code run by `parse()` raises the abort signal, `parse()`
returns normally with no AST, having appended exactly one further diagnostic,
at the line and column of the current token; the cursor has not moved. -/
theorem parse_catches_abort {Block : Type} (typeIsTealKeyword : TokenType → Bool)
    (g : Grammar (Option Block)) (s s1 : Parser) (h : g.run typeIsTealKeyword s = .stop s1) :
    ∃ tok, peekToken s1 0 = some tok ∧
      parse typeIsTealKeyword g s =
        .ret none { maxErrors := s1.maxErrors, tokens := s1.tokens, pos := s1.pos,
                    errors := s1.errors ++
                      [{ message := tooManyErrors s1.errors.length, line := tok.line,
                         col := tok.col }] } := by
  have hsat := (Grammar.run_sat typeIsTealKeyword (fun _ => True)
    (fun s1 => ∃ tok, peekToken s1 0 = some tok) call_stop_peek g s trivial).1
  rw [h] at hsat
  obtain ⟨tok, hp⟩ := hsat
  exact ⟨tok, hp, parseWith_stop _ s s1 tok h hp⟩

/-- Witness of C4: grammar code that records twelve diagnostics is aborted at the
tenth, and `parse()` returns no AST and eleven diagnostics. -/
theorem parse_catches_abort_witness :
    (pushErrors 12).run sampleKeyword sampleParser = .stop sampleAborted ∧
    ∃ tok, peekToken sampleAborted 0 = some tok ∧
      parse sampleKeyword (pushErrors 12) sampleParser =
        .ret none { maxErrors := sampleAborted.maxErrors, tokens := sampleAborted.tokens,
                    pos := sampleAborted.pos,
                    errors := sampleAborted.errors ++
                      [{ message := tooManyErrors sampleAborted.errors.length, line := tok.line,
                         col := tok.col }] } :=
  ⟨rfl, parse_catches_abort sampleKeyword (pushErrors 12) sampleParser sampleAborted rfl⟩

/-- C2: for a fresh parser (cap 10, no diagnostics) and any grammar code, when the
parse is aborted `parse()` returns no AST and `errors()` holds exactly the cap's
ten diagnostics of the grammar code followed by one final diagnostic, eleven
entries in all. -/
theorem parse_abort_cap_plus_one {Block : Type} (typeIsTealKeyword : TokenType → Bool)
    (g : Grammar (Option Block)) (toks : List Token) (s1 : Parser)
    (h : g.run typeIsTealKeyword (Parser.new toks) = .stop s1) :
    s1.maxErrors = 10 ∧ s1.errors.length = 10 ∧
    ∃ tok s2, peekToken s1 0 = some tok ∧
      parse typeIsTealKeyword g (Parser.new toks) = .ret none s2 ∧
      s2.errors = s1.errors ++
        [{ message := tooManyErrors 10, line := tok.line, col := tok.col }] ∧
      (parse typeIsTealKeyword g (Parser.new toks)).errors.map List.length = some (10 + 1) := by
  have hsat := (Grammar.run_sat typeIsTealKeyword _ _ (call_bounded 10) g (Parser.new toks)
    ⟨rfl, by simp [Parser.new]⟩).1
  rw [h] at hsat
  obtain ⟨hcap, hlen, tok, hp⟩ := hsat
  have hparse := parseWith_stop (g.run typeIsTealKeyword) (Parser.new toks) s1 tok h hp
  refine ⟨hcap, hlen, tok, _, hp, hparse, ?_, ?_⟩
  · simp [Parser.record, diagnosticAt, hlen]
  · simp [parse, hparse, Outcome.errors, Outcome.state, Parser.record, hlen]

/-- Witness of C2: the aborted parse of the examples. -/
theorem parse_abort_cap_plus_one_witness :
    (pushErrors 12).run sampleKeyword (Parser.new sampleTokens) = .stop sampleAborted ∧
    sampleAborted.maxErrors = 10 ∧ sampleAborted.errors.length = 10 ∧
    ∃ tok s2, peekToken sampleAborted 0 = some tok ∧
      parse sampleKeyword (pushErrors 12) (Parser.new sampleTokens) = .ret none s2 ∧
      s2.errors = sampleAborted.errors ++
        [{ message := tooManyErrors 10, line := tok.line, col := tok.col }] ∧
      (parse sampleKeyword (pushErrors 12) (Parser.new sampleTokens)).errors.map List.length =
        some (10 + 1) :=
  ⟨rfl, parse_abort_cap_plus_one sampleKeyword (pushErrors 12) sampleTokens sampleAborted rfl⟩

/-- The trace of the aborted parse of the examples: ten states, with one to ten
diagnostics, the last one being the state at the throw. -/
theorem trace_pushErrors :
    ((pushErrors 12).trace sampleKeyword sampleParser).map (fun s1 => s1.errors.length) =
      [1, 2, 3, 4, 5, 6, 7, 8, 9, 10] ∧
    ((pushErrors 12).trace sampleKeyword sampleParser).getLast? = some sampleAborted :=
  ⟨rfl, rfl⟩

/-- C5, as stated, fails for the list that `errors()` exposes once `parse()` has
returned: after an aborted parse of the examples it holds eleven diagnostics,
one more than the cap of ten. -/
theorem errors_exceed_cap_after_abort :
    ∃ s2, parse sampleKeyword (pushErrors 12) (Parser.new sampleTokens) = .ret none s2 ∧
      s2.maxErrors = 10 ∧ s2.errors.length = 11 ∧ ¬ s2.errors.length ≤ s2.maxErrors :=
  ⟨_, rfl, rfl, rfl, by decide⟩

/-- C5, amended: during a parse started from a fresh parser the number of
recorded diagnostics does not exceed `maxErrors` after any call of the cursor
and diagnostics helpers by the grammar code, and the list that `errors()`
exposes once `parse()` has returned holds at most `maxErrors + 1` entries. -/
theorem errors_bounded {Block : Type} (typeIsTealKeyword : TokenType → Bool)
    (g : Grammar (Option Block)) (toks : List Token) :
    (∀ s1 ∈ g.trace typeIsTealKeyword (Parser.new toks), s1.errors.length ≤ s1.maxErrors) ∧
    (∀ s2, (parse typeIsTealKeyword g (Parser.new toks)).state = some s2 →
      s2.errors.length ≤ s2.maxErrors + 1) := by
  have hsat := Grammar.run_sat typeIsTealKeyword _ _ (call_bounded 10) g (Parser.new toks)
    ⟨rfl, by simp [Parser.new]⟩
  constructor
  · intro s1 hs1
    rcases hsat.2 s1 hs1 with ⟨hcap, hlen⟩ | ⟨hcap, hlen, _⟩ <;> omega
  · intro s2 hs2
    have hrun := hsat.1
    cases hr : g.run typeIsTealKeyword (Parser.new toks) with
    | ret b s1 =>
      rw [hr] at hrun
      simp only [parse, parseWith, hr, Outcome.state, Option.some.injEq] at hs2
      subst hs2
      obtain ⟨hcap, hlen⟩ := hrun
      omega
    | stop s1 =>
      rw [hr] at hrun
      obtain ⟨hcap, hlen, tok, hp⟩ := hrun
      have hparse := parseWith_stop (g.run typeIsTealKeyword) (Parser.new toks) s1 tok hr hp
      simp only [parse, hparse, Outcome.state, Option.some.injEq] at hs2
      subst hs2
      simp [Parser.record, hcap, hlen]
    | undefined => simp [parse, parseWith, hr, Outcome.state] at hs2

/-! ## Invariants of the cursor and of the diagnostics -/

/-- A call with the effect of a cursor or diagnostics helper keeps the cap and
the tokens, does not move the cursor backwards and only appends diagnostics. -/
theorem CallEffect.evolves {β : Type} (s s1 : Parser) (o : Outcome β) (heff : CallEffect s o)
    (h : o.state = some s1) :
    s1.maxErrors = s.maxErrors ∧ s1.tokens = s.tokens ∧ s.pos ≤ s1.pos ∧
      s.errors <+: s1.errors := by
  cases o with
  | ret b s2 =>
    simp only [Outcome.state, Option.some.injEq] at h
    subst h
    rcases heff with ⟨q, hq, hs⟩ | ⟨tok, msg, _, hs, _⟩
    · subst hs
      exact ⟨rfl, rfl, hq, List.prefix_refl _⟩
    · subst hs
      exact ⟨rfl, rfl, le_refl _, List.prefix_append _ _⟩
  | stop s2 =>
    simp only [Outcome.state, Option.some.injEq] at h
    subst h
    obtain ⟨tok, msg, _, hs, _⟩ := heff
    subst hs
    exact ⟨rfl, rfl, le_refl _, List.prefix_append _ _⟩
  | undefined => simp [Outcome.state] at h

/-- In either mode `pushError` keeps the cap, the tokens and the cursor, and
appends to the diagnostics. -/
theorem pushError_evolves (s s1 : Parser) (msg : String) (nothrow : Bool)
    (h : (pushError s msg nothrow).state = some s1) :
    s1.maxErrors = s.maxErrors ∧ s1.tokens = s.tokens ∧ s1.pos = s.pos ∧
      s.errors <+: s1.errors := by
  cases hp : peekToken s 0 with
  | none => simp [pushError, hp, Outcome.state] at h
  | some tok =>
    rw [pushError_of_peek s msg nothrow tok hp] at h
    split at h <;>
      (simp only [Outcome.state, Option.some.injEq] at h
       subst h
       exact ⟨rfl, rfl, rfl, List.prefix_append _ _⟩)

/-- The abort handling of `parse()` keeps the cap, the tokens and the cursor of
the state at the throw, and appends to its diagnostics. -/
theorem parseWith_stop_evolves {Block : Type} (parseChunk : Parser → Outcome (Option Block))
    (s0 s s1 : Parser) (hstop : parseChunk s0 = .stop s)
    (h : (parseWith parseChunk s0).state = some s1) :
    s1.maxErrors = s.maxErrors ∧ s1.tokens = s.tokens ∧ s1.pos = s.pos ∧
      s.errors <+: s1.errors := by
  simp only [parseWith, hstop] at h
  cases hpush : pushError s (tooManyErrors s.errors.length) true with
  | ret u s2 =>
    rw [hpush] at h
    simp only [Outcome.bind, Outcome.state, Option.some.injEq] at h
    subst h
    exact pushError_evolves s s2 _ true (by rw [hpush]; rfl)
  | stop s2 =>
    rw [hpush] at h
    simp only [Outcome.bind, Outcome.state, Option.some.injEq] at h
    subst h
    exact pushError_evolves s s2 _ true (by rw [hpush]; rfl)
  | undefined =>
    rw [hpush] at h
    simp [Outcome.bind, Outcome.state] at h

/-- C11: the cursor never moves backwards: after `match`, `matchAny`, `consume`,
`pushError`, `skipToNextStatement` and the abort handling of `parse()`, with
any argument, the position is at least what it was before the call, whether
the call returns or raises the abort signal. -/
theorem cursor_monotone {Block : Type} (typeIsTealKeyword : TokenType → Bool) (s s1 : Parser) :
    (∀ t, (match_ typeIsTealKeyword s t).state = some s1 → s.pos ≤ s1.pos) ∧
    (∀ ts, (matchAny typeIsTealKeyword s ts).state = some s1 → s.pos ≤ s1.pos) ∧
    (∀ t errMsg, (consume typeIsTealKeyword s t errMsg).state = some s1 → s.pos ≤ s1.pos) ∧
    (∀ msg nothrow, (pushError s msg nothrow).state = some s1 → s.pos ≤ s1.pos) ∧
    ((skipToNextStatement s).state = some s1 → s.pos ≤ s1.pos) ∧
    (∀ (parseChunk : Parser → Outcome (Option Block)) (s0 : Parser),
      parseChunk s0 = .stop s → (parseWith parseChunk s0).state = some s1 → s.pos ≤ s1.pos) := by
  refine ⟨?_, ?_, ?_, ?_, ?_, ?_⟩
  · intro t h
    exact (CallEffect.evolves s s1 _ (match_effect typeIsTealKeyword s t) h).2.2.1
  · intro ts h
    exact (CallEffect.evolves s s1 _ (matchAny_effect typeIsTealKeyword s ts) h).2.2.1
  · intro t errMsg h
    exact (CallEffect.evolves s s1 _ (consume_effect typeIsTealKeyword s t errMsg) h).2.2.1
  · intro msg nothrow h
    exact le_of_eq (pushError_evolves s s1 msg nothrow h).2.2.1.symm
  · intro h
    exact (CallEffect.evolves s s1 _ (skipToNextStatement_effect s) h).2.2.1
  · intro parseChunk s0 hstop h
    exact le_of_eq (parseWith_stop_evolves parseChunk s0 s s1 hstop h).2.2.1.symm

/-- C13: diagnostics are only appended: after `match`, `matchAny`, `consume`,
`pushError`, `skipToNextStatement` and the abort handling of `parse()`, the
diagnostics list before the call is a prefix of the list after it. -/
theorem errors_append_only {Block : Type} (typeIsTealKeyword : TokenType → Bool)
    (s s1 : Parser) :
    (∀ t, (match_ typeIsTealKeyword s t).state = some s1 → s.errors <+: s1.errors) ∧
    (∀ ts, (matchAny typeIsTealKeyword s ts).state = some s1 → s.errors <+: s1.errors) ∧
    (∀ t errMsg, (consume typeIsTealKeyword s t errMsg).state = some s1 →
      s.errors <+: s1.errors) ∧
    (∀ msg nothrow, (pushError s msg nothrow).state = some s1 → s.errors <+: s1.errors) ∧
    ((skipToNextStatement s).state = some s1 → s.errors <+: s1.errors) ∧
    (∀ (parseChunk : Parser → Outcome (Option Block)) (s0 : Parser),
      parseChunk s0 = .stop s → (parseWith parseChunk s0).state = some s1 →
      s.errors <+: s1.errors) := by
  refine ⟨?_, ?_, ?_, ?_, ?_, ?_⟩
  · intro t h
    exact (CallEffect.evolves s s1 _ (match_effect typeIsTealKeyword s t) h).2.2.2
  · intro ts h
    exact (CallEffect.evolves s s1 _ (matchAny_effect typeIsTealKeyword s ts) h).2.2.2
  · intro t errMsg h
    exact (CallEffect.evolves s s1 _ (consume_effect typeIsTealKeyword s t errMsg) h).2.2.2
  · intro msg nothrow h
    exact (pushError_evolves s s1 msg nothrow h).2.2.2
  · intro h
    exact (CallEffect.evolves s s1 _ (skipToNextStatement_effect s) h).2.2.2
  · intro parseChunk s0 hstop h
    exact (parseWith_stop_evolves parseChunk s0 s s1 hstop h).2.2.2

/-- Witness of C11: `match(Name)` on the first token of the examples. -/
theorem cursor_monotone_witness :
    (match_ sampleKeyword sampleParser TokenType.Name).state = some sampleParser.advance ∧
    sampleParser.pos ≤ sampleParser.advance.pos :=
  ⟨by decide,
   (@cursor_monotone Unit sampleKeyword sampleParser sampleParser.advance).1 TokenType.Name
     (by decide)⟩

/-- Witness of C13: a failed `consume` on the first token of the examples. -/
theorem errors_append_only_witness :
    (consume sampleKeyword sampleParser TokenType.K_end "expected end").state =
      some (sampleParser.record (diagnosticAt "expected end" (tk TokenType.Name 1 1))) ∧
    sampleParser.errors <+:
      (sampleParser.record (diagnosticAt "expected end" (tk TokenType.Name 1 1))).errors :=
  ⟨by decide,
   (@errors_append_only Unit sampleKeyword sampleParser
      (sampleParser.record (diagnosticAt "expected end" (tk TokenType.Name 1 1)))).2.2.1
      TokenType.K_end "expected end" (by decide)⟩

/-- On an EOF-terminated sequence a token that is not EOF is not the last one. -/
theorem succ_lt_of_not_eof (s : Parser) (last tok : Token)
    (hlast : s.tokens.getLast? = some last) (heof : last.type = TokenType.EndOfFile)
    (hcur : peekToken s 0 = some tok) (hne : tok.type ≠ TokenType.EndOfFile) :
    s.pos + 1 < s.tokens.length := by
  rw [peekToken_zero] at hcur
  have hlt : s.pos < s.tokens.length := (List.getElem?_eq_some_iff.mp hcur).1
  have hget : s.tokens[s.tokens.length - 1]? = some last := by
    rw [← hlast, List.getLast?_eq_getElem?]
  by_contra hge
  have hpos : s.pos = s.tokens.length - 1 := by omega
  rw [hpos, hget] at hcur
  cases hcur
  exact hne heof

/-- C12, as stated, fails for `match`: on the EOF token alone, `match(EndOfFile)`
moves the cursor to index 1 of a sequence of length 1, where `peekToken()` has
no token to read. -/
theorem match_eof_leaves_sequence :
    eofOnly.tokens.getLast? = some (tk TokenType.EndOfFile 1 1) ∧
    eofOnly.pos < eofOnly.tokens.length ∧
    match_ sampleKeyword eofOnly TokenType.EndOfFile = .ret true eofOnly.advance ∧
    ¬ eofOnly.advance.pos < eofOnly.advance.tokens.length ∧
    peekToken eofOnly.advance 0 = none :=
  ⟨by decide, by decide, rfl, by decide, by decide⟩

/-- With a token under the cursor, `matchAny` returns false in the same state, or
returns true one position on from a token that is not EOF. -/
theorem matchAny_cases (typeIsTealKeyword : TokenType → Bool) (s : Parser) (tok : Token)
    (hp : peekToken s 0 = some tok) (ts : List TokenType) :
    matchAny typeIsTealKeyword s ts = .ret false s ∨
    (tok.type ≠ TokenType.EndOfFile ∧ matchAny typeIsTealKeyword s ts = .ret true s.advance) := by
  have hloop := matchAnyLoop_spec typeIsTealKeyword s tok hp ts
  have hne : (TokenType.EndOfFile == TokenType.Name) = false := by decide
  have heof : check typeIsTealKeyword s TokenType.EndOfFile =
      some (tok.type == TokenType.EndOfFile) := by
    simp [check, hp, hne]
  by_cases hE : tok.type = TokenType.EndOfFile
  · have hb : (tok.type == TokenType.EndOfFile) = true := by simp [hE]
    rw [hb] at heof
    exact Or.inl (by simp [matchAny, heof])
  · have hb : (tok.type == TokenType.EndOfFile) = false := by simp [hE]
    rw [hb] at heof
    by_cases hex : ∃ t ∈ ts, check typeIsTealKeyword s t = some true
    · exact Or.inr ⟨hE, by simp [matchAny, heof, hloop.1 hex]⟩
    · exact Or.inl (by simp [matchAny, heof, hloop.2 hex])

/-- A failed `consume` leaves the cursor where it was. -/
theorem consume_failure_pos (typeIsTealKeyword : TokenType → Bool) (s s1 : Parser)
    (t : TokenType) (errMsg : String) (hc : check typeIsTealKeyword s t = some false)
    (h : (consume typeIsTealKeyword s t errMsg).state = some s1) :
    s1.pos = s.pos ∧ s1.tokens = s.tokens := by
  simp only [consume, hc] at h
  cases hpush : pushError s errMsg false with
  | ret u s2 =>
    rw [hpush] at h
    simp only [Outcome.bind, Outcome.state, Option.some.injEq] at h
    subst h
    have hev := pushError_evolves s s2 errMsg false (by rw [hpush]; rfl)
    exact ⟨hev.2.2.1, hev.2.1⟩
  | stop s2 =>
    rw [hpush] at h
    simp only [Outcome.bind, Outcome.state, Option.some.injEq] at h
    subst h
    have hev := pushError_evolves s s2 errMsg false (by rw [hpush]; rfl)
    exact ⟨hev.2.2.1, hev.2.1⟩
  | undefined =>
    rw [hpush] at h
    simp [Outcome.bind, Outcome.state] at h

/-- C12, amended: on a non-empty token sequence whose last token is EOF and an
in-bounds cursor, `matchAny` and `skipToNextStatement` leave the cursor at a
valid index of the sequence; `match` and `consume` leave it at a valid index
exactly when they do not consume the last token of the sequence: when the cursor
is on the last token and `check(t)` holds, they leave the cursor at the length
of the sequence, one past the end, where `peekToken()` has no token to read. -/
theorem cursor_stays_in_bounds (typeIsTealKeyword : TokenType → Bool) (s s1 : Parser)
    (last tok : Token) (hlast : s.tokens.getLast? = some last)
    (heof : last.type = TokenType.EndOfFile) (hcur : peekToken s 0 = some tok) :
    (∀ ts, (matchAny typeIsTealKeyword s ts).state = some s1 → s1.pos < s1.tokens.length) ∧
    ((skipToNextStatement s).state = some s1 → s1.pos < s1.tokens.length) ∧
    (∀ t, (match_ typeIsTealKeyword s t).state = some s1 →
      (s1.pos < s1.tokens.length ↔
        ¬ (s.pos + 1 = s.tokens.length ∧ check typeIsTealKeyword s t = some true)) ∧
      (s.pos + 1 = s.tokens.length → check typeIsTealKeyword s t = some true →
        s1.pos = s1.tokens.length ∧ peekToken s1 0 = none)) ∧
    (∀ t errMsg, (consume typeIsTealKeyword s t errMsg).state = some s1 →
      (s1.pos < s1.tokens.length ↔
        ¬ (s.pos + 1 = s.tokens.length ∧ check typeIsTealKeyword s t = some true)) ∧
      (s.pos + 1 = s.tokens.length → check typeIsTealKeyword s t = some true →
        s1.pos = s1.tokens.length ∧ peekToken s1 0 = none)) := by
  have hlt : s.pos < s.tokens.length := by
    rw [peekToken_zero] at hcur
    exact (List.getElem?_eq_some_iff.mp hcur).1
  have hadv : tok.type ≠ TokenType.EndOfFile → s.pos + 1 < s.tokens.length :=
    succ_lt_of_not_eof s last tok hlast heof hcur
  have hpast : ∀ s2 : Parser, s2.pos = s.pos + 1 → s2.tokens = s.tokens →
      ((s2.pos < s2.tokens.length ↔ ¬ (s.pos + 1 = s.tokens.length ∧ True)) ∧
       (s.pos + 1 = s.tokens.length → s2.pos = s2.tokens.length ∧ peekToken s2 0 = none)) := by
    intro s2 hpos htok
    refine ⟨?_, ?_⟩
    · rw [hpos, htok]
      constructor
      · intro h1 h2; omega
      · intro h1
        have : ¬ s.pos + 1 = s.tokens.length := fun e => h1 ⟨e, trivial⟩
        omega
    · intro he
      refine ⟨by rw [hpos, htok, he], ?_⟩
      rw [peekToken_zero, htok, hpos]
      exact List.getElem?_eq_none (by omega)
  refine ⟨?_, ?_, ?_, ?_⟩
  · intro ts h
    rcases matchAny_cases typeIsTealKeyword s tok hcur ts with hr | ⟨hne, hr⟩
    · rw [hr] at h
      simp only [Outcome.state, Option.some.injEq] at h
      subst h
      exact hlt
    · rw [hr] at h
      simp only [Outcome.state, Option.some.injEq] at h
      subst h
      exact hadv hne
  · intro h
    have hget : s.tokens[s.tokens.length - 1]? = some last := by
      rw [← hlast, List.getLast?_eq_getElem?]
    obtain ⟨q, tokq, _, hq, _, _, hrun⟩ := skipLoop_spec (s.tokens.length - s.pos) s rfl
      ⟨s.tokens.length - 1, last, by omega, hget, Or.inl heof⟩
    simp only [skipToNextStatement, hrun, Outcome.state, Option.some.injEq] at h
    subst h
    exact (List.getElem?_eq_some_iff.mp hq).1
  · intro t h
    cases hc : check typeIsTealKeyword s t with
    | none => simp [match_, hc, Outcome.state] at h
    | some b =>
      cases b with
      | true =>
        simp only [match_, hc, Outcome.state, Option.some.injEq] at h
        subst h
        have hp := hpast { s with pos := s.pos + 1 } rfl rfl
        exact ⟨by simpa using hp.1, fun he _ => hp.2 he⟩
      | false =>
        simp only [match_, hc, Outcome.state, Option.some.injEq] at h
        subst h
        exact ⟨by simp [hlt], fun _ hf => by cases hf⟩
  · intro t errMsg h
    cases hc : check typeIsTealKeyword s t with
    | none => simp [consume, hc, Outcome.state] at h
    | some b =>
      cases b with
      | true =>
        simp only [consume, hc, hcur, Outcome.state, Option.some.injEq] at h
        subst h
        have hp := hpast { s with pos := s.pos + 1 } rfl rfl
        exact ⟨by simpa using hp.1, fun he _ => hp.2 he⟩
      | false =>
        obtain ⟨hsame, htok⟩ := consume_failure_pos typeIsTealKeyword s s1 t errMsg hc h
        refine ⟨?_, fun _ hf => by cases hf⟩
        rw [hsame, htok]
        simp [hlt]

/-- Two EOF tokens: a sequence whose EOF tag also stands before its last token. -/
theorem match_eof_before_last :
    match_ sampleKeyword (Parser.new [tk TokenType.EndOfFile 1 1, tk TokenType.EndOfFile 2 1])
        TokenType.EndOfFile =
      .ret true (cursorAt [tk TokenType.EndOfFile 1 1, tk TokenType.EndOfFile 2 1] 1) ∧
    (cursorAt [tk TokenType.EndOfFile 1 1, tk TokenType.EndOfFile 2 1] 1).pos <
      (cursorAt [tk TokenType.EndOfFile 1 1, tk TokenType.EndOfFile 2 1] 1).tokens.length :=
  ⟨rfl, by decide⟩

/-- Witness of C12: `match(Name)` on the first token of the examples stays in
bounds, and `match(EndOfFile)` on the EOF token alone leaves the cursor at the
length of the sequence. -/
theorem cursor_stays_in_bounds_witness :
    (sampleParser.tokens.getLast? = some (tk TokenType.EndOfFile 3 1) ∧
     peekToken sampleParser 0 = some (tk TokenType.Name 1 1) ∧
     (match_ sampleKeyword sampleParser TokenType.Name).state = some sampleParser.advance ∧
     sampleParser.advance.pos < sampleParser.advance.tokens.length) ∧
    (eofOnly.tokens.getLast? = some (tk TokenType.EndOfFile 1 1) ∧
     peekToken eofOnly 0 = some (tk TokenType.EndOfFile 1 1) ∧
     (match_ sampleKeyword eofOnly TokenType.EndOfFile).state = some eofOnly.advance ∧
     eofOnly.advance.pos = eofOnly.advance.tokens.length ∧
     peekToken eofOnly.advance 0 = none) :=
  ⟨⟨by decide, by decide, by decide,
    (((cursor_stays_in_bounds sampleKeyword sampleParser sampleParser.advance
      (tk TokenType.EndOfFile 3 1) (tk TokenType.Name 1 1) (by decide) rfl (by decide)).2.2.1
      TokenType.Name (by decide)).1).2 (by decide)⟩,
   ⟨by decide, by decide, by decide,
    ((cursor_stays_in_bounds sampleKeyword eofOnly eofOnly.advance
      (tk TokenType.EndOfFile 1 1) (tk TokenType.EndOfFile 1 1) (by decide) rfl (by decide)).2.2.1
      TokenType.EndOfFile (by decide)).2 (by decide) (by decide)⟩⟩

/-! ## The outcome of `parse()` -/

/-- C14: when the grammar code completes without raising the abort signal,
`parse()` returns exactly what `parseChunk()` returned, in the state in which it
returned, so `errors()` is the list recorded during parsing and no summary is
added. Whenever `parse()` is defined its outcome is one of two: the chunk with
the diagnostics of the grammar code, or no AST with those diagnostics followed
by the summary. -/
theorem parse_outcome {Block : Type} (typeIsTealKeyword : TokenType → Bool)
    (g : Grammar (Option Block)) (s : Parser) :
    (∀ b s1, g.run typeIsTealKeyword s = .ret b s1 →
      parse typeIsTealKeyword g s = .ret b s1 ∧
      (parse typeIsTealKeyword g s).errors = some s1.errors) ∧
    (parse typeIsTealKeyword g s = .undefined ∨
     (∃ b s1, g.run typeIsTealKeyword s = .ret b s1 ∧ parse typeIsTealKeyword g s = .ret b s1) ∨
     (∃ s1 tok, g.run typeIsTealKeyword s = .stop s1 ∧ peekToken s1 0 = some tok ∧
        parse typeIsTealKeyword g s =
          .ret none { maxErrors := s1.maxErrors, tokens := s1.tokens, pos := s1.pos,
                      errors := s1.errors ++
                        [{ message := tooManyErrors s1.errors.length, line := tok.line,
                           col := tok.col }] })) := by
  constructor
  · intro b s1 h
    simp [parse, parseWith, h, Outcome.errors, Outcome.state]
  · cases hr : g.run typeIsTealKeyword s with
    | ret b s1 => exact Or.inr (Or.inl ⟨b, s1, rfl, by simp [parse, parseWith, hr]⟩)
    | stop s1 =>
      have hsat := (Grammar.run_sat typeIsTealKeyword (fun _ => True)
        (fun s1 => ∃ tok, peekToken s1 0 = some tok) call_stop_peek g s trivial).1
      rw [hr] at hsat
      obtain ⟨tok, hp⟩ := hsat
      exact Or.inr (Or.inr ⟨s1, tok, rfl, hp, parseWith_stop _ s s1 tok hr hp⟩)
    | undefined => exact Or.inl (by simp [parse, parseWith, hr])

/-- Witness of C14: grammar code that records two diagnostics and returns an
empty chunk. -/
theorem parse_outcome_witness :
    (pushErrors 2).run sampleKeyword sampleParser =
      .ret (some []) { maxErrors := 10, tokens := sampleTokens, pos := 0,
                       errors := List.replicate 2
                         { message := "unexpected token", line := 1, col := 1 } } ∧
    parse sampleKeyword (pushErrors 2) sampleParser =
      .ret (some []) { maxErrors := 10, tokens := sampleTokens, pos := 0,
                       errors := List.replicate 2
                         { message := "unexpected token", line := 1, col := 1 } } :=
  ⟨rfl, ((parse_outcome sampleKeyword (pushErrors 2) sampleParser).1 _ _ rfl).1⟩

/-- C20: for a fresh parser and any grammar code, if `parse()` returns a chunk,
the number of diagnostics in `errors()` is strictly less than `maxErrors`. -/
theorem parse_success_below_cap {Block : Type} (typeIsTealKeyword : TokenType → Bool)
    (g : Grammar (Option Block)) (toks : List Token) (b : Block) (s1 : Parser)
    (h : parse typeIsTealKeyword g (Parser.new toks) = .ret (some b) s1) :
    s1.errors.length < s1.maxErrors ∧ s1.maxErrors = 10 := by
  have hsat := (Grammar.run_sat typeIsTealKeyword _ _ (call_bounded 10) g (Parser.new toks)
    ⟨rfl, by simp [Parser.new]⟩).1
  cases hr : g.run typeIsTealKeyword (Parser.new toks) with
  | ret b2 s2 =>
    rw [hr] at hsat
    simp only [parse, parseWith, hr, Outcome.ret.injEq] at h
    obtain ⟨_, hs⟩ := h
    subst hs
    obtain ⟨hcap, hlen⟩ := hsat
    exact ⟨by omega, hcap⟩
  | stop s2 =>
    rw [hr] at hsat
    obtain ⟨_, _, tok, hp⟩ := hsat
    have hparse := parseWith_stop (g.run typeIsTealKeyword) (Parser.new toks) s2 tok hr hp
    simp [parse, hparse] at h
  | undefined => simp [parse, parseWith, hr] at h

/-- Witness of C20: a parse of the examples that returns a chunk with nine
diagnostics. -/
theorem parse_success_below_cap_witness :
    parse sampleKeyword (pushErrors 9) (Parser.new sampleTokens) =
      .ret (some []) { maxErrors := 10, tokens := sampleTokens, pos := 0,
                       errors := List.replicate 9
                         { message := "unexpected token", line := 1, col := 1 } } ∧
    (List.replicate 9 ({ message := "unexpected token", line := 1, col := 1 } : Error)).length
      < 10 :=
  ⟨rfl, (parse_success_below_cap sampleKeyword (pushErrors 9) sampleTokens []
      { maxErrors := 10, tokens := sampleTokens, pos := 0,
        errors := List.replicate 9 { message := "unexpected token", line := 1, col := 1 } }
      rfl).1⟩

/-! ## Progress and termination of the recovery loop -/

/-- The counter of `skipAdvances` is the distance the cursor has moved when the
loop returns. -/
theorem skipAdvances_eq (n : Nat) : ∀ s s1 : Parser, skipLoop n s = .ret () s1 →
    s.pos + skipAdvances n s = s1.pos := by
  induction n with
  | zero => intro s s1 h; simp [skipLoop] at h
  | succ n ih =>
    intro s s1 h
    unfold skipLoop at h
    unfold skipAdvances
    cases hE : isAtEnd s with
    | none => simp [hE] at h
    | some b =>
      cases b with
      | true =>
        simp only [hE, Outcome.ret.injEq, true_and] at h
        subst h
        rfl
      | false =>
        simp only [hE] at h
        cases hp : peekToken s 0 with
        | none => simp [hp] at h
        | some tok =>
          simp only [hp] at h
          by_cases hB : isStatementBoundary tok.type = true
          · simp only [hB, if_true, Outcome.ret.injEq, true_and] at h
            subst h
            simp [hB]
          · have hB2 : isStatementBoundary tok.type = false := by simpa using hB
            simp only [hB2, Bool.false_eq_true, if_false] at h
            have hrec := ih _ s1 h
            simp only [hB2, Bool.false_eq_true, if_false]
            simp only [] at hrec
            omega

/-- C17: on an EOF-terminated token sequence, if the current token is neither a
synchronization token nor EOF, `skipToNextStatement` returns with the cursor
strictly after its position before the call. -/
theorem skipToNextStatement_progress (s : Parser) (last tok : Token)
    (hlast : s.tokens.getLast? = some last) (heof : last.type = TokenType.EndOfFile)
    (hcur : peekToken s 0 = some tok)
    (hbad : ¬ (tok.type = TokenType.EndOfFile ∨ tok.type ∈ synchronizationTokens)) :
    ∃ s1, skipToNextStatement s = .ret () s1 ∧ s.pos < s1.pos := by
  have hget : s.tokens[s.tokens.length - 1]? = some last := by
    rw [← hlast, List.getLast?_eq_getElem?]
  have hcur2 := hcur
  rw [peekToken_zero] at hcur2
  have hlt : s.pos < s.tokens.length := (List.getElem?_eq_some_iff.mp hcur2).1
  obtain ⟨q, tokq, hq, hgetq, hstopq, _, hrun⟩ := skipLoop_spec (s.tokens.length - s.pos) s rfl
    ⟨s.tokens.length - 1, last, by omega, hget, Or.inl heof⟩
  refine ⟨_, hrun, ?_⟩
  show s.pos < q
  rcases Nat.lt_or_eq_of_le hq with hlt2 | heq
  · exact hlt2
  · exfalso
    rw [← heq, hcur2] at hgetq
    cases hgetq
    exact hbad hstopq

/-- Witness of C17: recovery from the soft keyword of the examples. -/
theorem skipToNextStatement_progress_witness :
    sampleParser.advance.advance.tokens.getLast? = some (tk TokenType.EndOfFile 3 1) ∧
    peekToken sampleParser.advance.advance 0 = some (tk (TokenType.other 7) 2 1) ∧
    ∃ s1, skipToNextStatement sampleParser.advance.advance = .ret () s1 ∧
      sampleParser.advance.advance.pos < s1.pos :=
  ⟨by decide, by decide,
   skipToNextStatement_progress sampleParser.advance.advance (tk TokenType.EndOfFile 3 1)
     (tk (TokenType.other 7) 2 1) (by decide) rfl (by decide) (by decide)⟩

/-- C18: on a token sequence with an EOF token at or after the cursor, the first
one being at index `e`, `skipToNextStatement` returns, having executed `_pos++`
at most `e - _pos` times, with the cursor at or before `e`. -/
theorem skipToNextStatement_terminates (s : Parser) (e : Nat) (tokE : Token)
    (hle : s.pos ≤ e) (hget : s.tokens[e]? = some tokE)
    (hE : tokE.type = TokenType.EndOfFile)
    (_ : ∀ i tok, s.pos ≤ i → i < e → s.tokens[i]? = some tok →
      tok.type ≠ TokenType.EndOfFile) :
    ∃ q, skipToNextStatement s =
        .ret () { maxErrors := s.maxErrors, tokens := s.tokens, pos := q, errors := s.errors } ∧
      s.pos ≤ q ∧ q ≤ e ∧
      skipAdvances (s.tokens.length - s.pos) s = q - s.pos ∧
      skipAdvances (s.tokens.length - s.pos) s ≤ e - s.pos := by
  obtain ⟨q, tokq, hq, _, _, hbefore, hrun⟩ := skipLoop_spec (s.tokens.length - s.pos) s rfl
    ⟨e, tokE, hle, hget, Or.inl hE⟩
  have hqe : q ≤ e := by
    by_contra hlt
    exact hbefore e tokE hle (by omega) hget (Or.inl hE)
  have hcount := skipAdvances_eq _ s _ hrun
  simp only [] at hcount
  exact ⟨q, hrun, hq, hqe, by omega, by omega⟩

/-- Witness of C18: recovery from the soft keyword of the examples, one position
before their EOF. -/
theorem skipToNextStatement_terminates_witness :
    ∃ q, skipToNextStatement sampleParser.advance.advance =
        .ret () { maxErrors := sampleParser.advance.advance.maxErrors,
                  tokens := sampleParser.advance.advance.tokens, pos := q,
                  errors := sampleParser.advance.advance.errors } ∧
      sampleParser.advance.advance.pos ≤ q ∧ q ≤ 3 ∧
      skipAdvances (sampleParser.advance.advance.tokens.length -
        sampleParser.advance.advance.pos) sampleParser.advance.advance =
          q - sampleParser.advance.advance.pos ∧
      skipAdvances (sampleParser.advance.advance.tokens.length -
        sampleParser.advance.advance.pos) sampleParser.advance.advance ≤
          3 - sampleParser.advance.advance.pos :=
  skipToNextStatement_terminates sampleParser.advance.advance 3 (tk TokenType.EndOfFile 3 1)
    (by decide) (by decide) rfl
    (fun i tok h1 h2 hget => by
      have h3 : 2 ≤ i := h1
      have hi : i = 2 := by omega
      subst hi
      have h4 : some (tk (TokenType.other 7) 2 1) = some tok := hget
      cases h4
      decide)

/-! ## The summary diagnostic -/

/-- The summary text for ten diagnostics. -/
theorem tooManyErrors_ten : tooManyErrors 10 = "Too many parsing errors (10)" := by
  decide

/-- C19, as stated, fails on the text of the message: after the aborted parse of
the examples the final diagnostic reads `Too many parsing errors (10)`, with a
capital `T`, which is not the text `too many parsing errors (10)`. -/
theorem summary_message_is_capitalised :
    ∃ s2 e, parse sampleKeyword (pushErrors 12) sampleParser = .ret none s2 ∧
      s2.errors.getLast? = some e ∧
      e.message = "Too many parsing errors (10)" ∧
      e.message ≠ "too many parsing errors (10)" :=
  ⟨_, _, rfl, rfl, by decide, by decide⟩

/-- C19, amended: the final diagnostic that `parse()` appends on abort has the
message `Too many parsing errors (N)`, where `N` is the number of diagnostics
recorded before it, and the line and column of the token under the cursor when
the parse was aborted; for a fresh parser `N` is the cap, 10. -/
theorem summary_diagnostic {Block : Type} (typeIsTealKeyword : TokenType → Bool)
    (g : Grammar (Option Block)) (s s1 : Parser)
    (h : g.run typeIsTealKeyword s = .stop s1) :
    ∃ tok s2, peekToken s1 0 = some tok ∧ parse typeIsTealKeyword g s = .ret none s2 ∧
      s2.errors = s1.errors ++
        [{ message := "Too many parsing errors (" ++ toString s1.errors.length ++ ")",
           line := tok.line, col := tok.col }] ∧
      (∀ toks, s = Parser.new toks →
        s1.errors.length = 10 ∧
        s2.errors.getLast? =
          some { message := "Too many parsing errors (10)", line := tok.line,
                 col := tok.col }) := by
  have hsat := (Grammar.run_sat typeIsTealKeyword (fun _ => True)
    (fun s1 => ∃ tok, peekToken s1 0 = some tok) call_stop_peek g s trivial).1
  rw [h] at hsat
  obtain ⟨tok, hp⟩ := hsat
  refine ⟨tok, _, hp, parseWith_stop _ s s1 tok h hp, rfl, ?_⟩
  intro toks hs
  subst hs
  have hb := (Grammar.run_sat typeIsTealKeyword _ _ (call_bounded 10) g (Parser.new toks)
    ⟨rfl, by simp [Parser.new]⟩).1
  rw [h] at hb
  obtain ⟨_, hlen, _⟩ := hb
  refine ⟨hlen, ?_⟩
  simp [Parser.record, diagnosticAt, hlen, tooManyErrors_ten]

/-- Witness of C19: the aborted parse of the examples. -/
theorem summary_diagnostic_witness :
    (pushErrors 12).run sampleKeyword sampleParser = .stop sampleAborted ∧
    ∃ tok s2, peekToken sampleAborted 0 = some tok ∧
      parse sampleKeyword (pushErrors 12) sampleParser = .ret none s2 ∧
      s2.errors = sampleAborted.errors ++
        [{ message := "Too many parsing errors (" ++ toString sampleAborted.errors.length ++ ")",
           line := tok.line, col := tok.col }] ∧
      (∀ toks, sampleParser = Parser.new toks →
        sampleAborted.errors.length = 10 ∧
        s2.errors.getLast? =
          some { message := "Too many parsing errors (10)", line := tok.line,
                 col := tok.col }) :=
  ⟨rfl, summary_diagnostic sampleKeyword (pushErrors 12) sampleParser sampleAborted rfl⟩

/-! ## Precedence climbing and the empty chunk -/

/-- The operand parser on a number literal returns its node and steps over it. -/
theorem parseOperand_literal (typeIsTealKeyword : TokenType → Bool) (s : Parser) (tok : Token)
    (hp : peekToken s 0 = some tok) (hnum : tok.type = TokenType.Number) :
    parseOperand typeIsTealKeyword s = .ret (.literal tok) s.advance := by
  have hne : (TokenType.Number == TokenType.Name) = false := by decide
  have hc : check typeIsTealKeyword s TokenType.Number = some true := by
    simp [check, hp, hnum, hne]
  simp [parseOperand, consume, hc, hp, Outcome.bind, Parser.advance]

/-- The loop of precedence climbing returns the left operand at a token whose
precedence is below the threshold. -/
theorem parseExpLoop_stop (typeIsTealKeyword : TokenType → Bool)
    (getBinaryPrecedence : TokenType → Int) (fuel : Nat) (minPrec : Int) (left : Expression)
    (s : Parser) (tok : Token) (hp : peekToken s 0 = some tok)
    (hlow : getBinaryPrecedence tok.type < minPrec) :
    parseExpLoop typeIsTealKeyword getBinaryPrecedence (fuel + 1) minPrec left s =
      .ret left s := by
  simp [parseExpLoop, hp, hlow]

/-- The loop of precedence climbing at an operator whose precedence reaches the
threshold: the operator is consumed, the right operand is parsed with the
threshold of the operator, and the loop goes on with the binary node. -/
theorem parseExpLoop_step (typeIsTealKeyword : TokenType → Bool)
    (getBinaryPrecedence : TokenType → Int) (fuel : Nat) (minPrec : Int) (left : Expression)
    (s : Parser) (tok : Token) (hp : peekToken s 0 = some tok)
    (hhigh : minPrec ≤ getBinaryPrecedence tok.type) :
    parseExpLoop typeIsTealKeyword getBinaryPrecedence (fuel + 1) minPrec left s =
      (parseExpRec typeIsTealKeyword getBinaryPrecedence fuel
        (if isRightAssociative tok.type then getBinaryPrecedence tok.type
         else getBinaryPrecedence tok.type + 1) s.advance).bind fun right s2 =>
          parseExpLoop typeIsTealKeyword getBinaryPrecedence fuel minPrec
            (.binary tok.type left right) s2 := by
  have hnot : ¬ getBinaryPrecedence tok.type < minPrec := by omega
  simp [parseExpLoop, hp, hnot, Parser.advance]

/-- A call of `parseExpRec` on a number literal parses it and enters the loop. -/
theorem parseExpRec_literal (typeIsTealKeyword : TokenType → Bool)
    (getBinaryPrecedence : TokenType → Int) (fuel : Nat) (minPrec : Int)
    (s : Parser) (tok : Token) (hp : peekToken s 0 = some tok)
    (hnum : tok.type = TokenType.Number) :
    parseExpRec typeIsTealKeyword getBinaryPrecedence (fuel + 1) minPrec s =
      parseExpLoop typeIsTealKeyword getBinaryPrecedence fuel minPrec (.literal tok)
        s.advance := by
  simp [parseExpRec, parseOperand_literal typeIsTealKeyword s tok hp hnum, Outcome.bind]

/-- Precedence climbing over `a o1 b o2 c <end>` when the second operator reaches
the threshold of the right-hand operand of the first: the second operator takes
`b` and `c`, and the first takes `a` and that node. -/
theorem climb_right (typeIsTealKeyword : TokenType → Bool)
    (getBinaryPrecedence : TokenType → Int) (fuel : Nat) (minPrec : Int)
    (a o1 b o2 c e : Token)
    (ha : a.type = TokenType.Number) (hb : b.type = TokenType.Number)
    (hc : c.type = TokenType.Number)
    (he : getBinaryPrecedence e.type < minPrec)
    (h1 : minPrec ≤ getBinaryPrecedence o1.type)
    (h2 : rightThreshold getBinaryPrecedence o1.type ≤ getBinaryPrecedence o2.type) :
    parseExpRec typeIsTealKeyword getBinaryPrecedence (fuel + 6) minPrec
        (Parser.new [a, o1, b, o2, c, e]) =
      .ret (.binary o1.type (.literal a) (.binary o2.type (.literal b) (.literal c)))
        (cursorAt [a, o1, b, o2, c, e] 5) := by
  have hge1 : getBinaryPrecedence o1.type ≤ rightThreshold getBinaryPrecedence o1.type := by
    unfold rightThreshold; split <;> omega
  have hge2 : getBinaryPrecedence o2.type ≤ rightThreshold getBinaryPrecedence o2.type := by
    unfold rightThreshold; split <;> omega
  have p0 : peekToken (cursorAt [a, o1, b, o2, c, e] 0) 0 = some a := by simp [peekToken, cursorAt]
  have p1 : peekToken (cursorAt [a, o1, b, o2, c, e] 1) 0 = some o1 := by simp [peekToken, cursorAt]
  have p2 : peekToken (cursorAt [a, o1, b, o2, c, e] 2) 0 = some b := by simp [peekToken, cursorAt]
  have p3 : peekToken (cursorAt [a, o1, b, o2, c, e] 3) 0 = some o2 := by simp [peekToken, cursorAt]
  have p4 : peekToken (cursorAt [a, o1, b, o2, c, e] 4) 0 = some c := by simp [peekToken, cursorAt]
  have p5 : peekToken (cursorAt [a, o1, b, o2, c, e] 5) 0 = some e := by simp [peekToken, cursorAt]
  have inner : parseExpRec typeIsTealKeyword getBinaryPrecedence (fuel + 2)
      (rightThreshold getBinaryPrecedence o2.type) (cursorAt [a, o1, b, o2, c, e] 4) =
      .ret (.literal c) (cursorAt [a, o1, b, o2, c, e] 5) := by
    rw [parseExpRec_literal _ _ _ _ _ c p4 hc]
    exact parseExpLoop_stop _ _ _ _ _ _ e p5 (by omega)
  have middle : parseExpRec typeIsTealKeyword getBinaryPrecedence (fuel + 4)
      (rightThreshold getBinaryPrecedence o1.type) (cursorAt [a, o1, b, o2, c, e] 2) =
      .ret (.binary o2.type (.literal b) (.literal c)) (cursorAt [a, o1, b, o2, c, e] 5) := by
    rw [parseExpRec_literal _ _ _ _ _ b p2 hb]
    have hstep := parseExpLoop_step typeIsTealKeyword getBinaryPrecedence (fuel + 2)
      (rightThreshold getBinaryPrecedence o1.type) (.literal b)
      (cursorAt [a, o1, b, o2, c, e] 3) o2 p3 h2
    rw [show (cursorAt [a, o1, b, o2, c, e] 2).advance = cursorAt [a, o1, b, o2, c, e] 3 from rfl,
      hstep]
    rw [show (cursorAt [a, o1, b, o2, c, e] 3).advance = cursorAt [a, o1, b, o2, c, e] 4 from rfl]
    have inner2 := inner
    unfold rightThreshold at inner2
    rw [inner2]
    exact parseExpLoop_stop _ _ _ _ _ _ e p5 (by omega)
  rw [show Parser.new [a, o1, b, o2, c, e] = cursorAt [a, o1, b, o2, c, e] 0 from rfl,
    parseExpRec_literal _ _ _ _ _ a p0 ha,
    show (cursorAt [a, o1, b, o2, c, e] 0).advance = cursorAt [a, o1, b, o2, c, e] 1 from rfl,
    parseExpLoop_step typeIsTealKeyword getBinaryPrecedence (fuel + 4) minPrec (.literal a)
      (cursorAt [a, o1, b, o2, c, e] 1) o1 p1 h1,
    show (cursorAt [a, o1, b, o2, c, e] 1).advance = cursorAt [a, o1, b, o2, c, e] 2 from rfl]
  have middle2 := middle
  unfold rightThreshold at middle2
  rw [middle2]
  exact parseExpLoop_stop _ _ _ _ _ _ e p5 he

/-- Precedence climbing over `a o1 b o2 c <end>` when the second operator is below
the threshold of the right-hand operand of the first: the first operator takes
`a` and `b`, and the second takes that node and `c`. -/
theorem climb_left (typeIsTealKeyword : TokenType → Bool)
    (getBinaryPrecedence : TokenType → Int) (fuel : Nat) (minPrec : Int)
    (a o1 b o2 c e : Token)
    (ha : a.type = TokenType.Number) (hb : b.type = TokenType.Number)
    (hc : c.type = TokenType.Number)
    (he : getBinaryPrecedence e.type < minPrec)
    (h1 : minPrec ≤ getBinaryPrecedence o1.type)
    (h2 : minPrec ≤ getBinaryPrecedence o2.type)
    (h3 : getBinaryPrecedence o2.type < rightThreshold getBinaryPrecedence o1.type) :
    parseExpRec typeIsTealKeyword getBinaryPrecedence (fuel + 6) minPrec
        (Parser.new [a, o1, b, o2, c, e]) =
      .ret (.binary o2.type (.binary o1.type (.literal a) (.literal b)) (.literal c))
        (cursorAt [a, o1, b, o2, c, e] 5) := by
  have hge2 : getBinaryPrecedence o2.type ≤ rightThreshold getBinaryPrecedence o2.type := by
    unfold rightThreshold; split <;> omega
  have p0 : peekToken (cursorAt [a, o1, b, o2, c, e] 0) 0 = some a := by simp [peekToken, cursorAt]
  have p1 : peekToken (cursorAt [a, o1, b, o2, c, e] 1) 0 = some o1 := by simp [peekToken, cursorAt]
  have p2 : peekToken (cursorAt [a, o1, b, o2, c, e] 2) 0 = some b := by simp [peekToken, cursorAt]
  have p3 : peekToken (cursorAt [a, o1, b, o2, c, e] 3) 0 = some o2 := by simp [peekToken, cursorAt]
  have p4 : peekToken (cursorAt [a, o1, b, o2, c, e] 4) 0 = some c := by simp [peekToken, cursorAt]
  have p5 : peekToken (cursorAt [a, o1, b, o2, c, e] 5) 0 = some e := by simp [peekToken, cursorAt]
  have first : parseExpRec typeIsTealKeyword getBinaryPrecedence (fuel + 4)
      (rightThreshold getBinaryPrecedence o1.type) (cursorAt [a, o1, b, o2, c, e] 2) =
      .ret (.literal b) (cursorAt [a, o1, b, o2, c, e] 3) := by
    rw [parseExpRec_literal _ _ _ _ _ b p2 hb]
    exact parseExpLoop_stop _ _ _ _ _ _ o2 p3 h3
  have second : parseExpRec typeIsTealKeyword getBinaryPrecedence (fuel + 3)
      (rightThreshold getBinaryPrecedence o2.type) (cursorAt [a, o1, b, o2, c, e] 4) =
      .ret (.literal c) (cursorAt [a, o1, b, o2, c, e] 5) := by
    rw [parseExpRec_literal _ _ _ _ _ c p4 hc]
    exact parseExpLoop_stop _ _ _ _ _ _ e p5 (by omega)
  rw [show Parser.new [a, o1, b, o2, c, e] = cursorAt [a, o1, b, o2, c, e] 0 from rfl,
    parseExpRec_literal _ _ _ _ _ a p0 ha,
    show (cursorAt [a, o1, b, o2, c, e] 0).advance = cursorAt [a, o1, b, o2, c, e] 1 from rfl,
    parseExpLoop_step typeIsTealKeyword getBinaryPrecedence (fuel + 4) minPrec (.literal a)
      (cursorAt [a, o1, b, o2, c, e] 1) o1 p1 h1,
    show (cursorAt [a, o1, b, o2, c, e] 1).advance = cursorAt [a, o1, b, o2, c, e] 2 from rfl]
  have first2 := first
  unfold rightThreshold at first2
  rw [first2]
  simp only [Outcome.bind]
  rw [parseExpLoop_step typeIsTealKeyword getBinaryPrecedence (fuel + 3) minPrec _
      (cursorAt [a, o1, b, o2, c, e] 3) o2 p3 h2,
    show (cursorAt [a, o1, b, o2, c, e] 3).advance = cursorAt [a, o1, b, o2, c, e] 4 from rfl]
  have second2 := second
  unfold rightThreshold at second2
  rw [second2]
  exact parseExpLoop_stop _ _ _ _ _ _ e p5 he

/-- C15: precedence climbing respects precedence and associativity, for every
precedence table in which `*` binds tighter than `+`, the operators reach the
starting threshold and EOF does not: `1+2*3` parses to a `+` node whose right
child is a `*` node, `2^3^2` to `^(2, ^(3,2))` and `2-3-2` to `-(-(2,3),2)`, each
with no diagnostic and the cursor on the EOF token. -/
theorem precedence_climbing (typeIsTealKeyword : TokenType → Bool)
    (getBinaryPrecedence : TokenType → Int) (minPrec : Int) (fuel : Nat)
    (heof : getBinaryPrecedence TokenType.EndOfFile < minPrec)
    (hadd : minPrec ≤ getBinaryPrecedence TokenType.Op_Add)
    (hmul : getBinaryPrecedence TokenType.Op_Add < getBinaryPrecedence TokenType.Op_Mul)
    (hpow : minPrec ≤ getBinaryPrecedence TokenType.Op_Pow)
    (hsub : minPrec ≤ getBinaryPrecedence TokenType.Op_Sub) :
    parseExpRec typeIsTealKeyword getBinaryPrecedence (fuel + 6) minPrec
        (Parser.new tokens_1_add_2_mul_3) =
      .ret (.binary TokenType.Op_Add (.literal (num "1" 1))
              (.binary TokenType.Op_Mul (.literal (num "2" 3)) (.literal (num "3" 5))))
        { maxErrors := 10, tokens := tokens_1_add_2_mul_3, pos := 5, errors := [] } ∧
    parseExpRec typeIsTealKeyword getBinaryPrecedence (fuel + 6) minPrec
        (Parser.new tokens_2_pow_3_pow_2) =
      .ret (.binary TokenType.Op_Pow (.literal (num "2" 1))
              (.binary TokenType.Op_Pow (.literal (num "3" 3)) (.literal (num "2" 5))))
        { maxErrors := 10, tokens := tokens_2_pow_3_pow_2, pos := 5, errors := [] } ∧
    parseExpRec typeIsTealKeyword getBinaryPrecedence (fuel + 6) minPrec
        (Parser.new tokens_2_sub_3_sub_2) =
      .ret (.binary TokenType.Op_Sub
              (.binary TokenType.Op_Sub (.literal (num "2" 1)) (.literal (num "3" 3)))
              (.literal (num "2" 5)))
        { maxErrors := 10, tokens := tokens_2_sub_3_sub_2, pos := 5, errors := [] } := by
  have radd : isRightAssociative TokenType.Op_Add = false := by decide
  have rpow : isRightAssociative TokenType.Op_Pow = true := by decide
  have rsub : isRightAssociative TokenType.Op_Sub = false := by decide
  refine ⟨?_, ?_, ?_⟩
  · exact climb_right typeIsTealKeyword getBinaryPrecedence fuel minPrec
      (num "1" 1) (tk TokenType.Op_Add 1 2) (num "2" 3) (tk TokenType.Op_Mul 1 4) (num "3" 5)
      (tk TokenType.EndOfFile 1 6) rfl rfl rfl heof hadd
      (by simp only [rightThreshold, tk, radd]; simp; omega)
  · exact climb_right typeIsTealKeyword getBinaryPrecedence fuel minPrec
      (num "2" 1) (tk TokenType.Op_Pow 1 2) (num "3" 3) (tk TokenType.Op_Pow 1 4) (num "2" 5)
      (tk TokenType.EndOfFile 1 6) rfl rfl rfl heof hpow
      (by simp only [rightThreshold, tk, rpow]; simp)
  · exact climb_left typeIsTealKeyword getBinaryPrecedence fuel minPrec
      (num "2" 1) (tk TokenType.Op_Sub 1 2) (num "3" 3) (tk TokenType.Op_Sub 1 4) (num "2" 5)
      (tk TokenType.EndOfFile 1 6) rfl rfl rfl heof hsub hsub
      (by simp only [rightThreshold, tk, rsub]; simp)

/-- Witness of C15: the three inputs under the precedence table of the examples,
from threshold 0. -/
theorem precedence_climbing_witness :
    parseExpRec sampleKeyword samplePrecedence 6 0 (Parser.new tokens_1_add_2_mul_3) =
      .ret (.binary TokenType.Op_Add (.literal (num "1" 1))
              (.binary TokenType.Op_Mul (.literal (num "2" 3)) (.literal (num "3" 5))))
        { maxErrors := 10, tokens := tokens_1_add_2_mul_3, pos := 5, errors := [] } ∧
    parseExpRec sampleKeyword samplePrecedence 6 0 (Parser.new tokens_2_pow_3_pow_2) =
      .ret (.binary TokenType.Op_Pow (.literal (num "2" 1))
              (.binary TokenType.Op_Pow (.literal (num "3" 3)) (.literal (num "2" 5))))
        { maxErrors := 10, tokens := tokens_2_pow_3_pow_2, pos := 5, errors := [] } ∧
    parseExpRec sampleKeyword samplePrecedence 6 0 (Parser.new tokens_2_sub_3_sub_2) =
      .ret (.binary TokenType.Op_Sub
              (.binary TokenType.Op_Sub (.literal (num "2" 1)) (.literal (num "3" 3)))
              (.literal (num "2" 5)))
        { maxErrors := 10, tokens := tokens_2_sub_3_sub_2, pos := 5, errors := [] } :=
  precedence_climbing sampleKeyword samplePrecedence 0 0 (by decide) (by decide) (by decide)
    (by decide) (by decide)

/-- C16: for the token sequence that holds only the EOF token, `parse()` returns
an empty Block and `errors()` is empty, whatever the statement parser is. -/
theorem parse_empty_input {Statement : Type}
    (parseStat : Parser → Outcome (Option Statement)) (fuel : Nat) (eof : Token)
    (heof : eof.type = TokenType.EndOfFile) :
    parseWith (parseChunk parseStat (fuel + 1)) (Parser.new [eof]) =
      .ret (some { statements := [] }) (Parser.new [eof]) ∧
    (parseWith (parseChunk parseStat (fuel + 1)) (Parser.new [eof])).errors = some [] := by
  have hp : peekToken (Parser.new [eof]) 0 = some eof := by simp [peekToken, Parser.new]
  have hrun : parseChunk parseStat (fuel + 1) (Parser.new [eof]) =
      .ret (some { statements := [] }) (Parser.new [eof]) := by
    simp [parseChunk, parseChunkLoop, hp, heof]
  have hparse : parseWith (parseChunk parseStat (fuel + 1)) (Parser.new [eof]) =
      .ret (some { statements := [] }) (Parser.new [eof]) := by
    simp [parseWith, hrun]
  refine ⟨hparse, ?_⟩
  rw [hparse]
  rfl

/-- Witness of C16: the empty input with a statement parser that steps over one
token and omits the statement. -/
theorem parse_empty_input_witness :
    (tk TokenType.EndOfFile 1 1).type = TokenType.EndOfFile ∧
    parseWith (parseChunk (fun s => (.ret none s.advance : Outcome (Option Unit))) 1)
        (Parser.new [tk TokenType.EndOfFile 1 1]) =
      .ret (some { statements := [] }) (Parser.new [tk TokenType.EndOfFile 1 1]) ∧
    (parseWith (parseChunk (fun s => (.ret none s.advance : Outcome (Option Unit))) 1)
        (Parser.new [tk TokenType.EndOfFile 1 1])).errors = some [] :=
  ⟨rfl, parse_empty_input (fun s => (.ret none s.advance : Outcome (Option Unit))) 0
    (tk TokenType.EndOfFile 1 1) rfl⟩

end teal
